import Mathlib

/-! # node-steam-trash-bot: the trade-session machine and the offer-acceptance pipeline

A shallow embedding of `src/bot.js`.  The script is single threaded and event driven:
every handler runs to completion, reads and writes five global variables, and calls
out to the Steam client, to `SteamTrade` objects, to `request` and to the PhantomJS
bridge.  Each handler is a Lean function from the state before it runs to the state
after it and the list of calls it made, in program order.  A callback handed to an
asynchronous call is a handler of its own: the state counts the callbacks that are
outstanding, and the event that runs a callback is ignored when none is outstanding.

JavaScript strings are modelled by `String`; indices count characters on both sides
of every `indexOf`/`substring` pair, so the two agree.
-/

namespace TrashBot

/-! ## JavaScript string primitives used by the script -/

/-- The test `message.indexOf(pre) == 0`: the first occurrence of `pre` is at index 0. -/
def startsWith (message pre : String) : Bool :=
  pre.toList.isPrefixOf message.toList

/-- The call `s.substring(n)`. -/
def substring (s : String) (n : Nat) : String :=
  String.mk (s.toList.drop n)

/-- The call `s.split(sep)` for a one-character separator. -/
def split (s : String) (sep : Char) : List String :=
  (s.toList.splitOn sep).map String.mk

/-- Replace the first occurrence of `pat` in a list of characters by `rep`. -/
def replaceChars (pat rep : List Char) : List Char → List Char
  | [] => if pat.isEmpty then rep else []
  | c :: t =>
    if pat.isPrefixOf (c :: t) then rep ++ (c :: t).drop pat.length
    else c :: replaceChars pat rep t

/-- The call `s.replace(pat, rep)` with a string pattern: only the first occurrence is
replaced. -/
def replace (s pat rep : String) : String :=
  String.mk (replaceChars pat.toList rep.toList s.toList)

/-- JavaScript truthiness of an error argument: `null`/`undefined` (here `none`) and
the empty string are falsy. -/
def truthy : Option String → Bool
  | none => false
  | some e => e != ""

/-! ## Configuration and fixed messages -/

/-- The fields of `secrets.js` that the handlers read. -/
structure Secrets where
  profileId : String
  ownerId : String
  blacklist : List String
  whitelist : List String
  deriving DecidableEq, Repr

def sendInstructions : String :=
  "If you want to give me something, offer it for trade then check ready and I'll check ready soon after. Click Make Trade when you're sure you want to send me your items."

def takeInstructions (secrets : Secrets) : String :=
  "If you want me to send you something from my inventory, go to my inventory (http://steamcommunity.com/id/"
    ++ secrets.profileId
    ++ "/inventory/), right click on what you want and select \"Copy Link Address\", then paste that into this trade chat window and I'll add the item. Check ready then click Make Trade when you're happy with the offerings."

def tradeCompleteMessage : String :=
  "Trade complete! Please remember to remove me from your friends list if you don't want to make any more trades so that other people can trade with me. If you want to make trades later you can always re-add me."

def wrongLinkMessage : String :=
  "It looks like you selected \"Copy Page URL\", you need to select \"Copy Link Address\""

def badLinkMessage (secrets : Secrets) : String :=
  "I don't recognise that link. " ++ takeInstructions secrets

def itemNotFoundMessage : String :=
  "I can't find that item, you may need to refresh my inventory page or try to copy the link again."

def chatResponse : String :=
  "Hello! To give me your trash or get something from my inventory, invite me to trade and I'll give you instructions there."

def pausedMessage : String :=
  "Sorry, I can't trade right now. I'll set my status as Looking to Trade when I'm ready to accept requests again."

def notReadyMessage : String :=
  "Sorry, I can't accept a trade request right now, wait a few minutes and try again."

def cantAddMessage : String :=
  "Sorry, I can't add that item, it might not be tradable. If it's giftable you can leave a comment on my profile and I might gift it to you when I can."

def addedMessage : String :=
  "Item added, click ready when you want to make the trade"

/-- The string `'http://steamcommunity.com/id/' + secrets.profileId + '/inventory'`. -/
def inventoryRoot (secrets : Secrets) : String :=
  "http://steamcommunity.com/id/" ++ secrets.profileId ++ "/inventory"

/-- The first prefix tried by `parseInventoryLink`, ending in `/inventory/#`. -/
def slashPrefix (secrets : Secrets) : String :=
  "http://steamcommunity.com/id/" ++ secrets.profileId ++ "/inventory/#"

/-- The second prefix tried by `parseInventoryLink`, ending in `/inventory#`. -/
def plainPrefix (secrets : Secrets) : String :=
  "http://steamcommunity.com/id/" ++ secrets.profileId ++ "/inventory#"

/-! ## Calls made by the handlers -/

inductive EPersonaState
  | Online | Snooze | LookingToTrade | Away
  deriving DecidableEq, Repr

/-- An entry of a loaded inventory.  `id` is the field the script compares; `name`
stands for the rest of the object. -/
structure Item where
  id : String
  name : String
  deriving DecidableEq, Repr

/-- Calls on one `SteamTrade` object. -/
inductive TradeCall
  | setCookie (cookie : String)
  | open (steamId : String)
  | chatMsg (msg : String)
  | loadInventory (appId contextId : String)
  | addItems (items : List Item)
  | ready
  | confirm
  deriving DecidableEq, Repr

/-- Calls a handler makes, in program order.  `info` and `error` are the `winston`
log lines (their leading text; extra arguments of a log call are not recorded). -/
inductive Effect
  | info (msg : String)
  | error (msg : String)
  | setPersonaState (state : EPersonaState)
  | sendMessage (userId msg : String)
  | respondToTrade (tradeId : String) (accept : Bool)
  | gamesPlayed (gameId : String)
  | webLogOn
  | getInventoryHistory
  | setTimeout (ms : Nat)
  | request (url : String) (jar : List String)
  | uncaught (what : String)
  | phantomCreate
  | addCookie (name value : String)
  | createPage
  | pageOpen (url : String)
  | pageEvaluate
  | phantomExit
  | trade (i : Nat) (call : TradeCall)
  deriving DecidableEq, Repr

/-! ## Program state -/

/-- Where a `SteamTrade` object created by the `sessionStart` handler stands in the
chain of nested callbacks of lines 210-266. -/
inductive Phase
  /-- After `steamTrade.open` was called; its callback has not run. -/
  | opening
  /-- After `chatMsg(sendInstructions, cb)` was called; `cb` has not run. -/
  | giveSent
  /-- After `chatMsg(takeInstructions, cb)` was called; `cb` has not run. -/
  | takeSent
  /-- The `ready`, `chatMsg` and `end` listeners are registered. -/
  | negotiating
  deriving DecidableEq, Repr

/-- One `SteamTrade` object with the callbacks it still owes. -/
structure Trade where
  steamId : String
  /-- The field `steamTrade.sessionID`. -/
  sessionID : Option String
  /-- The cookies given to `steamTrade.setCookie`, in order. -/
  cookies : List String
  phase : Phase
  /-- Outstanding `loadInventory` callbacks; each closes over `splitDetails[2]`. -/
  loads : List String
  /-- Number of outstanding `addItems` callbacks. -/
  adds : Nat
  /-- Number of outstanding `ready` callbacks. -/
  readies : Nat
  /-- Number of outstanding `confirm` callbacks. -/
  confirms : Nat
  deriving DecidableEq, Repr

/-- The five globals of lines 18-22, the `SteamTrade` objects alive, and the numbers
of outstanding `webLogOn` callbacks, settle timers and listing requests. -/
structure State where
  webSessionId : Option String
  cookies : Option (List String)
  canTrade : Bool
  paused : Bool
  respondingToTradeRequests : Bool
  trades : List Trade
  webLogOns : Nat
  timers : Nat
  listings : Nat
  deriving DecidableEq, Repr

/-- The state when the script starts (lines 18-22). -/
def State.init : State :=
  { webSessionId := none, cookies := none, canTrade := false, paused := false,
    respondingToTradeRequests := false, trades := [], webLogOns := 0, timers := 0,
    listings := 0 }

/-! ## Inventory link resolver (lines 286-327) -/

/-- What `parseInventoryLink` does before it returns: it either invokes `callback`
at once, or hands a callback that closes over `splitDetails[2]` to
`steamTrade.loadInventory(appId, contextId, ...)`. -/
inductive Parsed
  | callback (item : Option Item)
  | loadInventory (appId contextId itemId : String)
  deriving DecidableEq, Repr

/-- The function `parseInventoryLink` up to the call of `loadInventory`.  The match on
a three-element list is the test `splitDetails.length != 3` followed by the reads of
`splitDetails[0]`, `[1]` and `[2]`. -/
def parseInventoryLink (secrets : Secrets) (message : String) : List Effect × Parsed :=
  let pre :=
    if !startsWith message (slashPrefix secrets) then plainPrefix secrets
    else slashPrefix secrets
  if !startsWith message pre then ([], .callback none)
  else
    let itemDetails := substring message pre.length
    if itemDetails = "" then
      ([.info ("Parsed item details " ++ itemDetails)], .callback none)
    else
      match split itemDetails '_' with
      | [appId, contextId, itemId] =>
        ([.info ("Parsed item details " ++ itemDetails), .info "Split item details"],
          .loadInventory appId contextId itemId)
      | _ =>
        ([.info ("Parsed item details " ++ itemDetails), .info "Split item details"],
          .callback none)

/-- The callback `parseInventoryLink` gives to `loadInventory` (lines 312-325): the
argument handed on to `callback`.  `_.each` visits every item, so the last item with
the requested id wins. -/
def inventoryLoaded (itemId : String) (items : Option (List Item)) : Option Item :=
  match items with
  | none => none
  | some items =>
    items.foldl (fun result item => if item.id = itemId then some item else result) none

/-! ## Trade session handlers (lines 210-266, 329-336) -/

/-- The callback the `chatMsg` listener gives to `parseInventoryLink` (lines 236-251). -/
def onItem (i : Nat) (t : Trade) (item : Option Item) : Trade × List Effect :=
  match item with
  | none => (t, [.info "No item retuned", .trade i (.chatMsg itemNotFoundMessage)])
  | some item => ({ t with adds := t.adds + 1 }, [.trade i (.addItems [item])])

/-- The `chatMsg` listener (lines 225-253). -/
def onChatMsg (secrets : Secrets) (i : Nat) (t : Trade) (message : String) :
    Trade × List Effect :=
  if !startsWith message (inventoryRoot secrets) then
    (t, [.info ("chatMsg from " ++ t.steamId), .info "Bad link",
         .trade i (.chatMsg (badLinkMessage secrets))])
  else if message = inventoryRoot secrets ++ "/" then
    (t, [.info ("chatMsg from " ++ t.steamId), .info "Wrong link",
         .trade i (.chatMsg wrongLinkMessage)])
  else
    match parseInventoryLink secrets message with
    | (logs, .callback item) =>
      ((onItem i t item).1, .info ("chatMsg from " ++ t.steamId) :: logs ++ (onItem i t item).2)
    | (logs, .loadInventory appId contextId itemId) =>
      ({ t with loads := t.loads ++ [itemId] },
        .info ("chatMsg from " ++ t.steamId) :: logs
          ++ [.trade i (.loadInventory appId contextId)])

/-- The test `!res || res.length < 1 || res[0].error` of the `addItems` callback; an
element of `res` is recorded by whether its `error` field is truthy. -/
def cantAdd : Option (List Bool) → Bool
  | none => true
  | some [] => true
  | some (err :: _) => err

/-- Events on one `SteamTrade` object: completions of its asynchronous calls and the
events it emits. -/
inductive TradeEvent
  /-- The callback of `steamTrade.open` runs. -/
  | opened
  /-- The callback of an instructional `steamTrade.chatMsg` runs. -/
  | chatAcked
  /-- The object emits `ready`. -/
  | ready
  /-- The object emits `chatMsg`. -/
  | chatMsg (message : String)
  /-- The object emits `end`. -/
  | tradeEnd (status : String)
  /-- The callback of the `k`-th outstanding `loadInventory` runs. -/
  | inventory (k : Nat) (items : Option (List Item))
  /-- The callback of `addItems` runs. -/
  | added (res : Option (List Bool))
  /-- The callback of `steamTrade.ready` runs. -/
  | readyDone
  /-- The callback of `steamTrade.confirm` runs. -/
  | confirmDone
  deriving DecidableEq, Repr

/-- One event on the `i`-th `SteamTrade` object; `paused` is the global at that time.
An emitted event with no listener registered, and a completion with no callback
outstanding, do nothing. -/
def stepTrade (secrets : Secrets) (paused : Bool) (i : Nat) (t : Trade) :
    TradeEvent → Trade × List Effect
  | .opened =>
    match t.phase with
    | .opening =>
      ({ t with phase := .giveSent },
        (if !paused then [Effect.setPersonaState .Away] else [])
          ++ [.info ("steamTrade opened with " ++ t.steamId),
              .trade i (.chatMsg sendInstructions)])
    | _ => (t, [])
  | .chatAcked =>
    match t.phase with
    | .giveSent =>
      ({ t with phase := .takeSent }, [.trade i (.chatMsg (takeInstructions secrets))])
    | .takeSent =>
      ({ t with phase := .negotiating },
        [.info ("Instruction messages sent to " ++ t.steamId)])
    | _ => (t, [])
  | .ready =>
    match t.phase with
    | .negotiating =>
      -- readyUp(steamTrade, steamId)
      ({ t with readies := t.readies + 1 },
        [.info ("User is ready to trade " ++ t.steamId), .trade i .ready])
    | _ => (t, [])
  | .chatMsg message =>
    match t.phase with
    | .negotiating => onChatMsg secrets i t message
    | _ => (t, [])
  | .tradeEnd status =>
    match t.phase with
    | .negotiating =>
      (t, [Effect.info ("Trade ended with status " ++ status)]
          ++ (if !paused then [Effect.setPersonaState .LookingToTrade] else [])
          ++ (if status = "complete" then [Effect.sendMessage t.steamId tradeCompleteMessage]
              else []))
    | _ => (t, [])
  | .inventory k items =>
    match t.loads.get? k with
    | none => (t, [])
    | some itemId =>
      onItem i { t with loads := t.loads.eraseIdx k } (inventoryLoaded itemId items)
  | .added res =>
    if t.adds = 0 then (t, [])
    else
      ({ t with adds := t.adds - 1 },
        [.trade i (.chatMsg (if cantAdd res then cantAddMessage else addedMessage))])
  | .readyDone =>
    if t.readies = 0 then (t, [])
    else
      ({ t with readies := t.readies - 1, confirms := t.confirms + 1 },
        [.info ("Set my offerings as ready with " ++ t.steamId), .trade i .confirm])
  | .confirmDone =>
    if t.confirms = 0 then (t, [])
    else ({ t with confirms := t.confirms - 1 }, [.info ("Confirmed trade with " ++ t.steamId)])

/-- A run of events on one `SteamTrade` object, each with the value of `paused` when
it is handled: the final object and all calls made, in order. -/
def runTrade (secrets : Secrets) (i : Nat) (t : Trade) :
    List (Bool × TradeEvent) → Trade × List Effect
  | [] => (t, [])
  | (paused, ev) :: rest =>
    let r := stepTrade secrets paused i t ev
    let r2 := runTrade secrets i r.1 rest
    (r2.1, r.2 ++ r2.2)

/-! ## Offer discovery and acceptance (lines 414-556) -/

/-- A `.tradeoffer` element of the listing page, as the script reads it: its `id`
attribute (`none` when the attribute is absent) and the number of elements that
`find('.tradeoffer_footer_actions')` returns inside it. -/
structure Entry where
  id : Option String
  footerActions : Nat
  deriving DecidableEq, Repr

/-- The loop of lines 442-457 over the `.tradeoffer` elements in document order: the
log lines written and the array `tradeIds`, or `none` when `id.replace` is called on
an absent `id` and throws. -/
def collectTradeIds : List Entry → List Effect × Option (List String)
  | [] => ([], some [])
  | elem :: rest =>
    let active := decide (elem.footerActions > 0)
    let found :=
      Effect.info ("Found " ++ (if active then "active" else "inactive")
        ++ " trade request with ID:")
    if active then
      match elem.id with
      | none => ([found], none)
      | some id =>
        let tradeId := replace id "tradeofferid_" ""
        ((found :: (collectTradeIds rest).1),
          (collectTradeIds rest).2.map
            (fun tradeIds => if tradeId != "" then tradeId :: tradeIds else tradeIds))
    else (found :: (collectTradeIds rest).1, (collectTradeIds rest).2)

/-- The function `splitCookie` (lines 541-546); `indexOf` gives -1 when there is no
`=`, so the name is empty and the value is the whole string. -/
def splitCookie (cookieStr : String) : String × String :=
  if '=' ∈ cookieStr.toList then
    (String.mk (cookieStr.toList.takeWhile (fun c => c != '=')),
      String.mk ((cookieStr.toList.dropWhile (fun c => c != '=')).drop 1))
  else ("", cookieStr)

/-- How the PhantomJS bridge answers during one call of `acceptTradeOffer`: whether
`phantom.create` throws, and the `err` argument of the callbacks of `createPage`,
`page.open` and `page.evaluate`.  When `phantom.create` calls back it is taken to pass
a usable handle `ph`. -/
structure Phantom where
  createThrows : Bool
  createPageErr : Option String
  openErr : Option String
  evaluateErr : Option String
  deriving DecidableEq, Repr

/-- A bridge on which every step succeeds. -/
def Phantom.ok : Phantom :=
  { createThrows := false, createPageErr := none, openErr := none, evaluateErr := none }

/-- Whether a node-style callback is ever invoked, and with which `err`. -/
inductive Callback
  | never
  | called (err : Option String)
  deriving DecidableEq, Repr

/-- The function `acceptTradeOffer` (lines 467-539) followed through its nested
callbacks: the calls made and what happens to `callback`.  `cookies` is the global
read when `phantom.create` calls back. -/
def acceptTradeOffer (cookies : Option (List String)) (tradeId : String) (ph : Phantom) :
    List Effect × Callback :=
  if ph.createThrows then
    -- the catch block of lines 536-538 logs and returns
    ([.info "Accepting tradeId", .phantomCreate, .error "Phantom exception: "], .never)
  else
    let start : List Effect :=
      [.info "Accepting tradeId", .phantomCreate]
        ++ (cookies.getD []).map
            (fun cookieStr => .addCookie (splitCookie cookieStr).1 (splitCookie cookieStr).2)
        ++ [.createPage]
    let url := "http://steamcommunity.com/tradeoffer/" ++ tradeId ++ "/"
    if truthy ph.createPageErr then
      (start ++ [.error "Phantom create error"], .called ph.createPageErr)
    else if truthy ph.openErr then
      (start ++ [.pageOpen url, .error "Phantom open error"], .called ph.openErr)
    else if truthy ph.evaluateErr then
      (start ++ [.pageOpen url, .info "Opened trade offer site", .pageEvaluate,
                 .error "Phantom evaluate error"], .called ph.evaluateErr)
    else
      (start ++ [.pageOpen url, .info "Opened trade offer site", .pageEvaluate,
                 .info "Accepted trade", .phantomExit], .called none)

/-- The library function `async.eachSeries(arr, iterator, callback)` of the `async`
module the script imports: `iterator` is applied to the elements one after the other;
when an iterator passes a truthy `err` to its callback the final callback gets `err`
and nothing further is started; when it passes a falsy one the next element is taken,
and after the last the final callback is called with `null`; on an empty array the
final callback is called at once.  An iterator that never calls back leaves the series
where it is.  The first argument counts the completed elements; the result is the
calls made and what happens to the final callback. -/
def eachSeries (iterator : Nat → String → List Effect × Callback) :
    Nat → List String → List Effect × Callback
  | _, [] => ([], .called none)
  | completed, x :: rest =>
    match iterator completed x with
    | (es, .never) => (es, .never)
    | (es, .called err) =>
      if truthy err then (es, .called err)
      else
        (es ++ (eachSeries iterator (completed + 1) rest).1,
          (eachSeries iterator (completed + 1) rest).2)

/-- The URL `'http://steamcommunity.com/id/' + secrets.profileId + '/tradeoffers/'`. -/
def tradeOffersUrl (secrets : Secrets) : String :=
  "http://steamcommunity.com/id/" ++ secrets.profileId ++ "/tradeoffers/"

/-- The function `acceptAllTradeOffers` up to the `request` call (lines 414-433);
`cookieJar()` logs every cookie it adds to the jar. -/
def acceptAllTradeOffers (secrets : Secrets) (s : State) : State × List Effect :=
  if s.paused then (s, [.info "Paused, can't accept trade offers"])
  else if s.respondingToTradeRequests then (s, [.info "Already responding to trade offers"])
  else
    ({ s with respondingToTradeRequests := true, listings := s.listings + 1 },
      (s.cookies.getD []).map (fun _ => Effect.info "adding cookie to jar")
        ++ [.info ("requesting page " ++ tradeOffersUrl secrets),
            .request (tradeOffersUrl secrets) (s.cookies.getD [])])

/-- The callback of the listing request (lines 433-463).  `body` is the list of
`.tradeoffer` elements of the page; the `n`-th call of `acceptTradeOffer` of the run
meets the bridge `phantoms[n]` (`Phantom.ok` past the end of the list).  The series is
followed to its end within this step. -/
def onListing (s : State) (error : Option String) (body : List Entry)
    (phantoms : List Phantom) : State × List Effect :=
  if truthy error then
    ({ s with respondingToTradeRequests := false }, [.error "tradeoffers request error"])
  else
    match collectTradeIds body with
    | (found, none) => (s, found ++ [.uncaught "TypeError"])
    | (found, some tradeIds) =>
      match eachSeries
          (fun n tradeId => acceptTradeOffer s.cookies tradeId (phantoms.getD n Phantom.ok))
          0 tradeIds with
      | (es, .never) => (s, found ++ es)
      | (es, .called _) =>
        ({ s with respondingToTradeRequests := false },
          found ++ es ++ [.info "Finished accepting trade offers with err"])

/-! ## Steam client handlers (lines 72-86, 116-284) -/

def onLoggedOn (s : State) : State × List Effect :=
  ({ s with canTrade := false }, [.info "Logged on", .setPersonaState .Online])

def onError (s : State) : State × List Effect :=
  ({ s with canTrade := false }, [.error "Caught Steam error"])

def onLoggedOff (s : State) : State × List Effect :=
  ({ s with canTrade := false }, [.error "Logged off from Steam"])

/-- The values of `steam.EChatEntryType` a `friendMsg` event can carry. -/
inductive EChatEntryType
  | ChatMsg | Typing | InviteGame | Emote | LeftConversation
  deriving DecidableEq, Repr

/-- The `friendMsg` handler (lines 116-153). -/
def onFriendMsg (secrets : Secrets) (s : State) (userId message : String)
    (entryType : EChatEntryType) : State × List Effect :=
  if entryType = .ChatMsg then
    if userId = secrets.ownerId then
      if startsWith message "game " then
        (s, [.info ("friendMsg event for " ++ userId),
             .gamesPlayed (substring message "game ".length)])
      else if message = "pause" then
        ({ s with paused := true },
          [.info ("friendMsg event for " ++ userId), .setPersonaState .Snooze, .info "PAUSED"])
      else if message = "unpause" then
        ({ s with paused := false },
          [.info ("friendMsg event for " ++ userId), .setPersonaState .LookingToTrade,
           .info "UNPAUSED"])
      else if message = "export" then
        (s, [.info ("friendMsg event for " ++ userId), .getInventoryHistory])
      else if message = "offers" then
        ((acceptAllTradeOffers secrets s).1,
          .info ("friendMsg event for " ++ userId) :: (acceptAllTradeOffers secrets s).2)
      else
        (s, [.info ("friendMsg event for " ++ userId),
             .sendMessage userId "Unrecognized command"])
    else (s, [.info ("friendMsg event for " ++ userId), .sendMessage userId chatResponse])
  else (s, [.info ("friendMsg event for " ++ userId)])

/-- The `tradeProposed` handler (lines 155-176). -/
def onTradeProposed (secrets : Secrets) (s : State) (tradeId steamId : String) :
    State × List Effect :=
  if secrets.blacklist.contains steamId then
    (s, [.info ("Trade from " ++ steamId ++ " proposed, ID " ++ tradeId),
         .info ("Blocked user " ++ steamId), .respondToTrade tradeId false])
  else if !s.canTrade then
    (s, [.info ("Trade from " ++ steamId ++ " proposed, ID " ++ tradeId),
         .info "Can't trade", .sendMessage steamId notReadyMessage,
         .respondToTrade tradeId false])
  else if s.paused && steamId != secrets.ownerId then
    (s, [.info ("Trade from " ++ steamId ++ " proposed, ID " ++ tradeId),
         .info "Paused", .sendMessage steamId pausedMessage,
         .respondToTrade tradeId false])
  else
    (s, [.info ("Trade from " ++ steamId ++ " proposed, ID " ++ tradeId),
         .info "Responding to trade", .respondToTrade tradeId true])

/-- The `webSessionID` handler up to the call of `bot.webLogOn` (lines 178-182). -/
def onWebSessionID (s : State) (sessionId : String) : State × List Effect :=
  ({ s with webSessionId := some sessionId, webLogOns := s.webLogOns + 1 },
    [.info ("Got webSessionID " ++ sessionId), .webLogOn])

/-- The callback given to `bot.webLogOn` (lines 182-192). -/
def onWebLogOn (s : State) (newCookies : List String) : State × List Effect :=
  ({ s with cookies := some newCookies, canTrade := true },
    [Effect.info "webLogOn returned"]
      ++ (if !s.paused then [Effect.setPersonaState .LookingToTrade] else [])
      ++ [.info "cookies/session set up"])

/-- The `sessionStart` handler up to the call of `steamTrade.open` (lines 195-210).
`_.each` over `cookies` visits nothing while `cookies` is still `null`. -/
def onSessionStart (s : State) (steamId : String) : State × List Effect :=
  if !s.canTrade then
    (s, [.info ("sessionStart " ++ steamId), .info ("Not ready to trade with " ++ steamId),
         .sendMessage steamId notReadyMessage])
  else
    ({ s with
        trades := s.trades ++
          [{ steamId := steamId, sessionID := s.webSessionId, cookies := s.cookies.getD [],
             phase := .opening, loads := [], adds := 0, readies := 0, confirms := 0 }] },
      [Effect.info ("sessionStart " ++ steamId)]
        ++ ((s.cookies.getD []).map
              (fun cookie =>
                [Effect.info ("setting cookie " ++ cookie),
                 Effect.trade s.trades.length (.setCookie cookie)])).flatten
        ++ [.trade s.trades.length (.open steamId)])

/-- The `tradeOffers` handler (lines 270-284); the timer it sets calls
`acceptAllTradeOffers` ten seconds later. -/
def onTradeOffers (s : State) (numOffers : Int) : State × List Effect :=
  if numOffers ≤ 0 then (s, [.info "tradeOffers event"])
  else if !s.canTrade then
    (s, [.info "tradeOffers event", .info "Can't accept trade offers yet"])
  else ({ s with timers := s.timers + 1 }, [.info "tradeOffers event", .setTimeout 10000])

/-! ## The event loop -/

/-- What the event loop can dispatch: events of the Steam client, completions of the
asynchronous calls the handlers made, and events on the `SteamTrade` objects. -/
inductive Event
  | loggedOn
  | error
  | loggedOff
  | friendMsg (userId message : String) (entryType : EChatEntryType)
  | tradeProposed (tradeId steamId : String)
  | webSessionID (sessionId : String)
  /-- The callback of the `k`-th outstanding `webLogOn` call runs. -/
  | webLogOn (k : Nat) (newCookies : List String)
  | sessionStart (steamId : String)
  | tradeOffers (numOffers : Int)
  /-- A settle timer set by the `tradeOffers` handler fires. -/
  | timer
  /-- The callback of the listing request runs. -/
  | listing (error : Option String) (body : List Entry) (phantoms : List Phantom)
  /-- An event on the `i`-th `SteamTrade` object. -/
  | trade (i : Nat) (ev : TradeEvent)
  deriving DecidableEq, Repr

/-- One turn of the event loop. -/
def step (secrets : Secrets) (s : State) : Event → State × List Effect
  | .loggedOn => onLoggedOn s
  | .error => onError s
  | .loggedOff => onLoggedOff s
  | .friendMsg userId message entryType => onFriendMsg secrets s userId message entryType
  | .tradeProposed tradeId steamId => onTradeProposed secrets s tradeId steamId
  | .webSessionID sessionId => onWebSessionID s sessionId
  | .webLogOn k newCookies =>
    if k < s.webLogOns then onWebLogOn { s with webLogOns := s.webLogOns - 1 } newCookies
    else (s, [])
  | .sessionStart steamId => onSessionStart s steamId
  | .tradeOffers numOffers => onTradeOffers s numOffers
  | .timer =>
    if s.timers = 0 then (s, [])
    else acceptAllTradeOffers secrets { s with timers := s.timers - 1 }
  | .listing error body phantoms =>
    if s.listings = 0 then (s, [])
    else onListing { s with listings := s.listings - 1 } error body phantoms
  | .trade i ev =>
    match s.trades.get? i with
    | none => (s, [])
    | some t =>
      ({ s with trades := s.trades.set i (stepTrade secrets s.paused i t ev).1 },
        (stepTrade secrets s.paused i t ev).2)

/-- A run of the event loop: the final state and all calls made, in order. -/
def run (secrets : Secrets) (s : State) : List Event → State × List Effect
  | [] => (s, [])
  | ev :: rest =>
    ((run secrets (step secrets s ev).1 rest).1,
      (step secrets s ev).2 ++ (run secrets (step secrets s ev).1 rest).2)


/-! ## Observations on the calls a handler made -/

/-- A `winston` log line. -/
def Effect.isLog : Effect → Bool
  | .info _ => true
  | .error _ => true
  | _ => false

/-- The `bot.sendMessage(userId, msg)` calls among `es`, in order. -/
def sentMessages : List Effect → List (String × String)
  | [] => []
  | .sendMessage userId msg :: es => (userId, msg) :: sentMessages es
  | _ :: es => sentMessages es

/-- The `bot.respondToTrade(tradeId, accept)` calls among `es`, in order. -/
def responses : List Effect → List (String × Bool)
  | [] => []
  | .respondToTrade tradeId accept :: es => (tradeId, accept) :: responses es
  | _ :: es => responses es

/-- The calls on `SteamTrade` objects among `es`, in order. -/
def tradeCalls : List Effect → List TradeCall
  | [] => []
  | .trade _ call :: es => call :: tradeCalls es
  | _ :: es => tradeCalls es

/-- The number of acceptance attempts started: one `phantom.create` call each. -/
def attempts (es : List Effect) : Nat :=
  es.count .phantomCreate

/-- The number of listing requests issued. -/
def requests : List Effect → Nat
  | [] => 0
  | .request _ _ :: es => requests es + 1
  | _ :: es => requests es

/-! ## Notions used to state the properties -/

/-- The format of a chat line is accepted: it begins with one of the two permalink
prefixes and its remainder after that prefix splits on `_` into exactly three fields. -/
def wellFormedLink (secrets : Secrets) (message : String) : Bool :=
  (startsWith message (slashPrefix secrets)
      && (split (substring message (slashPrefix secrets).length) '_').length == 3)
    || (startsWith message (plainPrefix secrets)
      && (split (substring message (plainPrefix secrets).length) '_').length == 3)

/-- What the history of a `SteamTrade` object must show for the phase it is in: the
events handled so far (`evs`) and the calls made on it so far (`calls`).  Outside the
negotiating phase no `ready` callback is outstanding. -/
def Instructed (secrets : Secrets) (t : Trade) (evs : List TradeEvent)
    (calls : List TradeCall) : Prop :=
  match t.phase with
  | .opening => t.readies = 0
  | .giveSent =>
    t.readies = 0 ∧ List.Sublist [TradeEvent.opened] evs
      ∧ List.Sublist [TradeCall.chatMsg sendInstructions] calls
  | .takeSent =>
    t.readies = 0 ∧ List.Sublist [TradeEvent.opened, .chatAcked] evs
      ∧ List.Sublist
          [TradeCall.chatMsg sendInstructions, .chatMsg (takeInstructions secrets)] calls
  | .negotiating =>
    List.Sublist [TradeEvent.opened, .chatAcked, .chatAcked] evs
      ∧ List.Sublist
          [TradeCall.chatMsg sendInstructions, .chatMsg (takeInstructions secrets)] calls

/-- The web-login cycles of a run.  A cycle starts when the `webSessionID` handler
runs with a session id and calls `bot.webLogOn`; it completes when the callback of
that call runs with the cookies. -/
structure Logins where
  /-- Session ids of the cycles whose `webLogOn` call is outstanding, oldest first. -/
  outstanding : List String
  /-- Session id and cookies of the cycles that completed, oldest first. -/
  completed : List (String × List String)
  /-- The session id of the most recent `webSessionID` event. -/
  latest : Option String
  deriving DecidableEq, Repr

/-- The effect of one event on the web-login cycles. -/
def Logins.step (l : Logins) : Event → Logins
  | .webSessionID sessionId =>
    { l with outstanding := l.outstanding ++ [sessionId], latest := some sessionId }
  | .webLogOn k newCookies =>
    match l.outstanding.get? k with
    | none => l
    | some sessionId =>
      { l with outstanding := l.outstanding.eraseIdx k,
               completed := l.completed ++ [(sessionId, newCookies)] }
  | _ => l

/-- The web-login cycles after the events `evs`, starting from `l`. -/
def Logins.run (l : Logins) : List Event → Logins
  | [] => l
  | ev :: rest => Logins.run (l.step ev) rest

/-- No web login has begun. -/
def Logins.init : Logins :=
  { outstanding := [], completed := [], latest := none }

theorem requests_append (es fs : List Effect) :
    requests (es ++ fs) = requests es + requests fs := by
  induction es with
  | nil => simp [requests]
  | cons e es ih =>
    cases e <;> simp [requests, ih]
    omega

theorem requests_of_logs (es : List Effect) (h : ∀ e ∈ es, e.isLog = true) :
    requests es = 0 := by
  induction es with
  | nil => rfl
  | cons e es ih =>
    have he := h e (List.mem_cons_self _ _)
    have ht := ih (fun x hx => h x (List.mem_cons_of_mem _ hx))
    cases e <;> simp_all [requests, Effect.isLog]

theorem acceptAll_requests_le (secrets : Secrets) (s : State) :
    requests (acceptAllTradeOffers secrets s).2 ≤ 1 := by
  unfold acceptAllTradeOffers
  split
  · simp [requests]
  · split
    · simp [requests]
    · rw [requests_append, requests_of_logs]
      · simp [requests]
      · intro e he
        simp only [List.mem_map] at he
        obtain ⟨_, _, rfl⟩ := he
        rfl

theorem acceptAll_guarded (secrets : Secrets) (s : State)
    (h : s.paused = true ∨ s.respondingToTradeRequests = true) :
    (acceptAllTradeOffers secrets s).1 = s ∧
      requests (acceptAllTradeOffers secrets s).2 = 0 ∧
      (acceptAllTradeOffers secrets s).2.count .phantomCreate = 0 ∧
      ∀ e ∈ (acceptAllTradeOffers secrets s).2, e.isLog = true := by
  unfold acceptAllTradeOffers
  by_cases hp : s.paused = true
  · simp [hp, requests, Effect.isLog]
  · rcases h with h | h
    · exact absurd h hp
    · simp [hp, h, requests, Effect.isLog]

theorem acceptAll_sets_guard (secrets : Secrets) (s : State) :
    (acceptAllTradeOffers secrets s).1.paused = true
      ∨ (acceptAllTradeOffers secrets s).1.respondingToTradeRequests = true := by
  unfold acceptAllTradeOffers
  by_cases hp : s.paused = true
  · simp [hp]
  · by_cases hr : s.respondingToTradeRequests = true
    · simp [hp, hr]
    · simp [hp, hr]

/-! ## Session start without a web session (C6) -/

/-- C6: a `sessionStart` event handled while `canTrade` is false sends exactly one
message, the not-ready message, to the peer; it makes no call on any `SteamTrade`
object, and the whole state (the five globals and the list of `SteamTrade` objects
with their listeners) is left as it was. -/
theorem sessionStart_without_auth (secrets : Secrets) (s : State) (steamId : String)
    (h : s.canTrade = false) :
    (step secrets s (.sessionStart steamId)).1 = s ∧
    sentMessages (step secrets s (.sessionStart steamId)).2 = [(steamId, notReadyMessage)] ∧
    tradeCalls (step secrets s (.sessionStart steamId)).2 = [] ∧
    (step secrets s (.sessionStart steamId)).1.trades = s.trades := by
  simp [step, onSessionStart, h, sentMessages, tradeCalls]

theorem sessionStart_without_auth_witness :
    State.init.canTrade = false ∧
    (step ⟨"trashbot", "owner", [], []⟩ State.init (.sessionStart "peer")).1 = State.init ∧
    sentMessages (step ⟨"trashbot", "owner", [], []⟩ State.init (.sessionStart "peer")).2
      = [("peer", notReadyMessage)] :=
  ⟨rfl, (sessionStart_without_auth ⟨"trashbot", "owner", [], []⟩ State.init "peer" rfl).1,
    (sessionStart_without_auth ⟨"trashbot", "owner", [], []⟩ State.init "peer" rfl).2.1⟩

/-! ## The single-flight guard (C3) -/

/-- C3: while `respondingToTradeRequests` is true a call of `acceptAllTradeOffers`
changes nothing in the state, issues no listing request, starts no acceptance attempt
and only writes log lines; and for every state, a second call made right after a
first one is such a no-op, so the two calls together issue at most one listing
request. -/
theorem acceptAll_single_flight (secrets : Secrets) (s : State)
    (h : s.respondingToTradeRequests = true) :
    ((acceptAllTradeOffers secrets s).1 = s ∧
      requests (acceptAllTradeOffers secrets s).2 = 0 ∧
      attempts (acceptAllTradeOffers secrets s).2 = 0 ∧
      ∀ e ∈ (acceptAllTradeOffers secrets s).2, e.isLog = true) ∧
    ∀ s0 : State,
      (acceptAllTradeOffers secrets (acceptAllTradeOffers secrets s0).1).1
          = (acceptAllTradeOffers secrets s0).1 ∧
      requests (acceptAllTradeOffers secrets (acceptAllTradeOffers secrets s0).1).2 = 0 ∧
      requests ((acceptAllTradeOffers secrets s0).2
          ++ (acceptAllTradeOffers secrets (acceptAllTradeOffers secrets s0).1).2) ≤ 1 := by
  refine ⟨?_, fun s0 => ?_⟩
  · have := acceptAll_guarded secrets s (Or.inr h)
    exact ⟨this.1, this.2.1, this.2.2.1, this.2.2.2⟩
  · have h2 := acceptAll_guarded secrets _ (acceptAll_sets_guard secrets s0)
    refine ⟨h2.1, h2.2.1, ?_⟩
    rw [requests_append, h2.2.1]
    exact acceptAll_requests_le secrets s0

theorem acceptAll_single_flight_witness :
    ((acceptAllTradeOffers ⟨"trashbot", "owner", [], []⟩
        { State.init with respondingToTradeRequests := true, listings := 1 }).1
      = { State.init with respondingToTradeRequests := true, listings := 1 }) ∧
    (acceptAllTradeOffers ⟨"trashbot", "owner", [], []⟩
      (acceptAllTradeOffers ⟨"trashbot", "owner", [], []⟩ State.init).1).1
      = (acceptAllTradeOffers ⟨"trashbot", "owner", [], []⟩ State.init).1 :=
  ⟨(acceptAll_single_flight ⟨"trashbot", "owner", [], []⟩
      { State.init with respondingToTradeRequests := true, listings := 1 } rfl).1.1,
    ((acceptAll_single_flight ⟨"trashbot", "owner", [], []⟩
      { State.init with respondingToTradeRequests := true, listings := 1 } rfl).2
        State.init).1⟩

/-! ## Pause (C10) -/

/-- C10 as stated fails: in a state reached from the start in which `paused` is true,
a trade proposed by the owner is answered with `respondToTrade(tradeId, true)`. -/
theorem paused_owner_trade_accepted :
    (run ⟨"trashbot", "owner", [], []⟩ State.init
        [.webSessionID "s1", .webLogOn 0 ["a=b"], .friendMsg "owner" "pause" .ChatMsg]).1.paused
      = true ∧
    responses (step ⟨"trashbot", "owner", [], []⟩
        (run ⟨"trashbot", "owner", [], []⟩ State.init
          [.webSessionID "s1", .webLogOn 0 ["a=b"], .friendMsg "owner" "pause" .ChatMsg]).1
        (.tradeProposed "t1" "owner")).2 = [("t1", true)] := by
  decide

/-- C10 amended: while `paused` is true every `tradeProposed` event gets exactly one
answer; it is `respondToTrade(tradeId, false)` for every peer other than the owner,
and for the owner it is `true` exactly when the owner is not blacklisted and
`canTrade` holds; and every call of `acceptAllTradeOffers` leaves the state as it
was, issues no listing request and starts no acceptance attempt. -/
theorem paused_suppresses (secrets : Secrets) (s : State) (tradeId steamId : String)
    (h : s.paused = true) :
    (steamId ≠ secrets.ownerId →
      responses (step secrets s (.tradeProposed tradeId steamId)).2 = [(tradeId, false)]) ∧
    (steamId = secrets.ownerId →
      responses (step secrets s (.tradeProposed tradeId steamId)).2
        = [(tradeId, !secrets.blacklist.contains steamId && s.canTrade)]) ∧
    (step secrets s (.tradeProposed tradeId steamId)).1 = s ∧
    (acceptAllTradeOffers secrets s).1 = s ∧
    requests (acceptAllTradeOffers secrets s).2 = 0 ∧
    attempts (acceptAllTradeOffers secrets s).2 = 0 := by
  have hg := acceptAll_guarded secrets s (Or.inl h)
  refine ⟨?_, ?_, ?_, hg.1, hg.2.1, hg.2.2.1⟩
  · intro hne
    simp only [step, onTradeProposed]
    split_ifs <;> simp_all [responses]
  · intro heq
    simp only [step, onTradeProposed]
    split_ifs <;> simp_all [responses]
  · simp only [step, onTradeProposed]
    split
    · rfl
    · split
      · rfl
      · split <;> rfl

theorem paused_suppresses_witness :
    ({ State.init with paused := true, canTrade := true } : State).paused = true ∧
    responses (step ⟨"trashbot", "owner", [], []⟩
        { State.init with paused := true, canTrade := true }
        (.tradeProposed "t1" "peer")).2 = [("t1", false)] ∧
    requests (acceptAllTradeOffers ⟨"trashbot", "owner", [], []⟩
        { State.init with paused := true, canTrade := true }).2 = 0 :=
  ⟨rfl,
    (paused_suppresses ⟨"trashbot", "owner", [], []⟩
      { State.init with paused := true, canTrade := true } "t1" "peer" rfl).1 (by decide),
    (paused_suppresses ⟨"trashbot", "owner", [], []⟩
      { State.init with paused := true, canTrade := true } "t1" "peer" rfl).2.2.2.2.1⟩

/-! ## The series of acceptance attempts (C1, C2) -/

theorem eachSeries_cons_ok (iterator : Nat → String → List Effect × Callback)
    (k : Nat) (x : String) (rest : List String) (err : Option String)
    (h : (iterator k x).2 = .called err) (hf : truthy err = false) :
    eachSeries iterator k (x :: rest)
      = ((iterator k x).1 ++ (eachSeries iterator (k + 1) rest).1,
          (eachSeries iterator (k + 1) rest).2) := by
  rcases hi : iterator k x with ⟨es, cb⟩
  rw [hi] at h
  simp only at h
  subst h
  simp [eachSeries, hi, hf]

theorem eachSeries_cons_err (iterator : Nat → String → List Effect × Callback)
    (k : Nat) (x : String) (rest : List String) (err : Option String)
    (h : (iterator k x).2 = .called err) (hf : truthy err = true) :
    eachSeries iterator k (x :: rest) = ((iterator k x).1, .called err) := by
  rcases hi : iterator k x with ⟨es, cb⟩
  rw [hi] at h
  simp only at h
  subst h
  simp [eachSeries, hi, hf]

theorem eachSeries_cons_never (iterator : Nat → String → List Effect × Callback)
    (k : Nat) (x : String) (rest : List String)
    (h : (iterator k x).2 = .never) :
    eachSeries iterator k (x :: rest) = ((iterator k x).1, .never) := by
  rcases hi : iterator k x with ⟨es, cb⟩
  rw [hi] at h
  simp only at h
  subst h
  simp [eachSeries, hi]

theorem attempts_append (es fs : List Effect) :
    attempts (es ++ fs) = attempts es + attempts fs := by
  simp [attempts]

theorem attempts_acceptTradeOffer (cookies : Option (List String)) (tradeId : String)
    (ph : Phantom) : attempts (acceptTradeOffer cookies tradeId ph).1 = 1 := by
  have hmap : ∀ l : List String,
      List.count Effect.phantomCreate
        (l.map (fun cookieStr =>
          Effect.addCookie (splitCookie cookieStr).1 (splitCookie cookieStr).2)) = 0 := by
    intro l
    induction l with
    | nil => rfl
    | cons c l ih => simp [List.count_cons, ih]
  unfold acceptTradeOffer attempts
  split_ifs <;> simp [List.count_cons, hmap]

theorem eachSeries_stops (iterator : Nat → String → List Effect × Callback)
    (x : String) (rest : List String) (err : Option String) :
    ∀ (done : List String) (k : Nat),
      (∀ i (h : i < done.length), (iterator (k + i) done[i]).2 = .called none) →
      (iterator (k + done.length) x).2 = .called err → truthy err = true →
      eachSeries iterator k (done ++ x :: rest) = eachSeries iterator k (done ++ [x]) ∧
      (eachSeries iterator k (done ++ x :: rest)).2 = .called err := by
  intro done
  induction done with
  | nil =>
    intro k _ hx hf
    simp only [List.nil_append, List.length_nil, Nat.add_zero] at hx ⊢
    rw [eachSeries_cons_err iterator k x rest err hx hf,
      eachSeries_cons_err iterator k x [] err hx hf]
    exact ⟨rfl, rfl⟩
  | cons d ds ih =>
    intro k hd hx hf
    have h0 : (iterator k d).2 = .called none := by
      have := hd 0 (by simp)
      simpa using this
    have hrest : ∀ i (h : i < ds.length), (iterator (k + 1 + i) ds[i]).2 = .called none := by
      intro i hi
      have := hd (i + 1) (by simp; omega)
      simpa [Nat.add_assoc, Nat.add_comm 1 i] using this
    have hx2 : (iterator (k + 1 + ds.length) x).2 = .called err := by
      simpa [Nat.add_assoc, Nat.add_comm 1 ds.length] using hx
    obtain ⟨e1, e2⟩ := ih (k + 1) hrest hx2 hf
    simp only [List.cons_append]
    rw [eachSeries_cons_ok iterator k d _ none h0 rfl,
      eachSeries_cons_ok iterator k d _ none h0 rfl]
    exact ⟨by rw [e1], e2⟩

theorem eachSeries_trace (iterator : Nat → String → List Effect × Callback)
    (x : String) (err : Option String) :
    ∀ (done : List String) (k : Nat),
      (∀ i (h : i < done.length), (iterator (k + i) done[i]).2 = .called none) →
      (iterator (k + done.length) x).2 = .called err → truthy err = true →
      (eachSeries iterator k (done ++ [x])).1
        = ((List.enumFrom k (done ++ [x])).map (fun p => (iterator p.1 p.2).1)).flatten := by
  intro done
  induction done with
  | nil =>
    intro k _ hx hf
    simp only [List.nil_append, List.length_nil, Nat.add_zero] at hx ⊢
    rw [eachSeries_cons_err iterator k x [] err hx hf]
    simp [List.enumFrom]
  | cons d ds ih =>
    intro k hd hx hf
    have h0 : (iterator k d).2 = .called none := by
      have := hd 0 (by simp)
      simpa using this
    have hrest : ∀ i (h : i < ds.length), (iterator (k + 1 + i) ds[i]).2 = .called none := by
      intro i hi
      have := hd (i + 1) (by simp; omega)
      simpa [Nat.add_assoc, Nat.add_comm 1 i] using this
    have hx2 : (iterator (k + 1 + ds.length) x).2 = .called err := by
      simpa [Nat.add_assoc, Nat.add_comm 1 ds.length] using hx
    have e := ih (k + 1) hrest hx2 hf
    simp only [List.cons_append]
    rw [eachSeries_cons_ok iterator k d _ none h0 rfl]
    simp only [List.enumFrom, List.map_cons, List.flatten_cons, e]

theorem attempts_eachSeries_stops (cookies : Option (List String)) (phantoms : List Phantom)
    (x : String) (err : Option String) :
    ∀ (done : List String) (k : Nat),
      (∀ i (h : i < done.length),
        (acceptTradeOffer cookies done[i] (phantoms.getD (k + i) Phantom.ok)).2
          = .called none) →
      (acceptTradeOffer cookies x (phantoms.getD (k + done.length) Phantom.ok)).2
        = .called err → truthy err = true →
      attempts (eachSeries
        (fun n tradeId => acceptTradeOffer cookies tradeId (phantoms.getD n Phantom.ok))
        k (done ++ [x])).1 = done.length + 1 := by
  intro done
  induction done with
  | nil =>
    intro k _ hx hf
    simp only [List.nil_append, List.length_nil, Nat.add_zero] at hx ⊢
    rw [eachSeries_cons_err _ k x [] err hx hf]
    exact attempts_acceptTradeOffer _ _ _
  | cons d ds ih =>
    intro k hd hx hf
    have h0 : (acceptTradeOffer cookies d (phantoms.getD k Phantom.ok)).2 = .called none := by
      have := hd 0 (by simp)
      simpa using this
    have hrest : ∀ i (h : i < ds.length),
        (acceptTradeOffer cookies ds[i] (phantoms.getD (k + 1 + i) Phantom.ok)).2
          = .called none := by
      intro i hi
      have := hd (i + 1) (by simp; omega)
      simpa [Nat.add_assoc, Nat.add_comm 1 i] using this
    have hx2 : (acceptTradeOffer cookies x
        (phantoms.getD (k + 1 + ds.length) Phantom.ok)).2 = .called err := by
      simpa [Nat.add_assoc, Nat.add_comm 1 ds.length] using hx
    have := ih (k + 1) hrest hx2 hf
    simp only [List.cons_append]
    rw [eachSeries_cons_ok _ k d _ none h0 rfl]
    simp only [attempts_append, this, attempts_acceptTradeOffer, List.length_cons]
    omega

/-- C1 as stated fails: on a listing with the two actionable offers 11 and 22, when
`createPage` reports an error for offer 11 the run ends there: one attempt was
started and the page of offer 22 is never opened. -/
theorem failed_offer_ends_run :
    (collectTradeIds [⟨some "tradeofferid_11", 1⟩, ⟨some "tradeofferid_22", 1⟩]).2
      = some ["11", "22"] ∧
    (acceptTradeOffer (some ["a=b"]) "11" ⟨false, some "boom", none, none⟩).2
      = .called (some "boom") ∧
    attempts (step ⟨"trashbot", "owner", [], []⟩
      { State.init with cookies := some ["a=b"], canTrade := true,
                        respondingToTradeRequests := true, listings := 1 }
      (.listing none [⟨some "tradeofferid_11", 1⟩, ⟨some "tradeofferid_22", 1⟩]
        [⟨false, some "boom", none, none⟩])).2 = 1 ∧
    Effect.pageOpen "http://steamcommunity.com/tradeoffer/22/" ∉
      (step ⟨"trashbot", "owner", [], []⟩
        { State.init with cookies := some ["a=b"], canTrade := true,
                          respondingToTradeRequests := true, listings := 1 }
        (.listing none [⟨some "tradeofferid_11", 1⟩, ⟨some "tradeofferid_22", 1⟩]
          [⟨false, some "boom", none, none⟩])).2 := by
  decide

/-- C1 amended: offers are attempted one at a time in listing order, and when
`acceptTradeOffer` reports an error on an offer that was reached (every offer before
it was accepted), the series ends there: the calls made by the run are the calls of
the attempt on the first offer, then those of the attempt on the second, and so on up
to and including the attempt on the failed offer, each attempt complete before the
next begins; the offers after the failed one add nothing, so exactly the offers up to
and including the failed one were attempted, and the final callback receives the
error. -/
theorem failure_ends_series (cookies : Option (List String)) (phantoms : List Phantom)
    (done : List String) (x : String) (rest : List String) (err : Option String)
    (hdone : ∀ i (h : i < done.length),
      (acceptTradeOffer cookies done[i] (phantoms.getD i Phantom.ok)).2 = .called none)
    (hx : (acceptTradeOffer cookies x (phantoms.getD done.length Phantom.ok)).2 = .called err)
    (herr : truthy err = true) :
    eachSeries (fun n tradeId => acceptTradeOffer cookies tradeId (phantoms.getD n Phantom.ok))
        0 (done ++ x :: rest)
      = eachSeries
          (fun n tradeId => acceptTradeOffer cookies tradeId (phantoms.getD n Phantom.ok))
          0 (done ++ [x]) ∧
    (eachSeries (fun n tradeId => acceptTradeOffer cookies tradeId (phantoms.getD n Phantom.ok))
        0 (done ++ x :: rest)).2 = .called err ∧
    attempts (eachSeries
        (fun n tradeId => acceptTradeOffer cookies tradeId (phantoms.getD n Phantom.ok))
        0 (done ++ x :: rest)).1 = done.length + 1 ∧
    (eachSeries (fun n tradeId => acceptTradeOffer cookies tradeId (phantoms.getD n Phantom.ok))
        0 (done ++ x :: rest)).1
      = (((done ++ [x]).enum).map
          (fun p => (acceptTradeOffer cookies p.2 (phantoms.getD p.1 Phantom.ok)).1)).flatten := by
  have h3 := eachSeries_trace
    (fun n tradeId => acceptTradeOffer cookies tradeId (phantoms.getD n Phantom.ok))
    x err done 0 (by simpa using hdone) (by simpa using hx) herr
  have h1 := eachSeries_stops
    (fun n tradeId => acceptTradeOffer cookies tradeId (phantoms.getD n Phantom.ok))
    x rest err done 0 (by simpa using hdone) (by simpa using hx) herr
  have h2 := attempts_eachSeries_stops cookies phantoms x err done 0
    (by simpa using hdone) (by simpa using hx) herr
  exact ⟨h1.1, h1.2, by rw [h1.1]; exact h2, by rw [h1.1]; exact h3⟩

theorem failure_ends_series_witness :
    (eachSeries
        (fun n tradeId => acceptTradeOffer (some ["a=b"]) tradeId
          (([⟨false, none, none, none⟩, ⟨false, none, some "timeout", none⟩] :
            List Phantom).getD n Phantom.ok))
        0 (["11"] ++ "22" :: ["33"])).2 = .called (some "timeout") ∧
    attempts (eachSeries
        (fun n tradeId => acceptTradeOffer (some ["a=b"]) tradeId
          (([⟨false, none, none, none⟩, ⟨false, none, some "timeout", none⟩] :
            List Phantom).getD n Phantom.ok))
        0 (["11"] ++ "22" :: ["33"])).1 = 2 ∧
    (eachSeries
        (fun n tradeId => acceptTradeOffer (some ["a=b"]) tradeId
          (([⟨false, none, none, none⟩, ⟨false, none, some "timeout", none⟩] :
            List Phantom).getD n Phantom.ok))
        0 (["11"] ++ "22" :: ["33"])).1
      = (((["11"] ++ ["22"]).enum).map
          (fun p => (acceptTradeOffer (some ["a=b"]) p.2
            (([⟨false, none, none, none⟩, ⟨false, none, some "timeout", none⟩] :
              List Phantom).getD p.1 Phantom.ok)).1)).flatten :=
  (failure_ends_series (some ["a=b"])
    [⟨false, none, none, none⟩, ⟨false, none, some "timeout", none⟩]
    ["11"] "22" ["33"] (some "timeout")
    (by intro i h; have : i = 0 := by simpa using h
        subst this; rfl)
    (by decide) (by decide)).2

theorem step_keeps_stuck (secrets : Secrets) (s : State) (ev : Event)
    (h : s.respondingToTradeRequests = true ∧ s.listings = 0) :
    (step secrets s ev).1.respondingToTradeRequests = true ∧ (step secrets s ev).1.listings = 0 := by
  obtain ⟨hr, hl⟩ := h
  cases ev with
  | loggedOn => simp [step, onLoggedOn, hr, hl]
  | error => simp [step, onError, hr, hl]
  | loggedOff => simp [step, onLoggedOff, hr, hl]
  | friendMsg userId message entryType =>
    simp only [step, onFriendMsg]
    have hg := (acceptAll_guarded secrets s (Or.inr hr)).1
    split_ifs <;> simp [hr, hl, hg]
  | tradeProposed tradeId steamId =>
    simp only [step, onTradeProposed]
    split_ifs <;> simp [hr, hl]
  | webSessionID sessionId => simp [step, onWebSessionID, hr, hl]
  | webLogOn k newCookies =>
    simp only [step, onWebLogOn]
    split_ifs <;> simp [hr, hl]
  | sessionStart steamId =>
    simp only [step, onSessionStart]
    split_ifs <;> simp [hr, hl]
  | tradeOffers numOffers =>
    simp only [step, onTradeOffers]
    split_ifs <;> simp [hr, hl]
  | timer =>
    simp only [step]
    split_ifs
    · exact ⟨hr, hl⟩
    · have hg := (acceptAll_guarded secrets { s with timers := s.timers - 1 } (Or.inr hr)).1
      rw [hg]
      exact ⟨hr, hl⟩
  | listing error body phantoms => simp [step, hr, hl]
  | trade i ev =>
    simp only [step]
    split <;> simp [hr, hl]

theorem run_keeps_stuck (secrets : Secrets) (evs : List Event) :
    ∀ s : State, s.respondingToTradeRequests = true ∧ s.listings = 0 →
      (run secrets s evs).1.respondingToTradeRequests = true := by
  induction evs with
  | nil => intro s h; exact h.1
  | cons ev rest ih =>
    intro s h
    simp only [run]
    exact ih _ (step_keeps_stuck secrets s ev h)

/-- C2 fails on the code: from the start state, after a web login the owner sends
`offers`, the listing shows the actionable offer 11, and `phantom.create` throws.  The
catch block logs and returns without calling `callback`, so the final callback of the
series never runs: the flag is still true, no callback is outstanding that could
reset it, and it stays true through every later run of events. -/
theorem flag_left_set_after_exception :
    (acceptTradeOffer (some ["a=b"]) "11" ⟨true, none, none, none⟩).2 = .never ∧
    (run ⟨"trashbot", "owner", [], []⟩ State.init
      [.webSessionID "s1", .webLogOn 0 ["a=b"], .friendMsg "owner" "offers" .ChatMsg,
       .listing none [⟨some "tradeofferid_11", 1⟩] [⟨true, none, none, none⟩]]).1
      = { State.init with webSessionId := some "s1", cookies := some ["a=b"],
                          canTrade := true, respondingToTradeRequests := true } ∧
    ∀ evs : List Event,
      (run ⟨"trashbot", "owner", [], []⟩
        (run ⟨"trashbot", "owner", [], []⟩ State.init
          [.webSessionID "s1", .webLogOn 0 ["a=b"], .friendMsg "owner" "offers" .ChatMsg,
           .listing none [⟨some "tradeofferid_11", 1⟩] [⟨true, none, none, none⟩]]).1
        evs).1.respondingToTradeRequests = true := by
  refine ⟨by decide, by decide, fun evs => ?_⟩
  exact run_keeps_stuck _ evs _ (by decide)

/-! ## Discovery (C7) -/

theorem replace_tradeofferid (x : String) :
    replace ("tradeofferid_" ++ x) "tradeofferid_" "" = x := by
  have h : ("tradeofferid_" ++ x).toList = "tradeofferid_".toList ++ x.toList := by
    simp
  unfold replace
  rw [h]
  simp [replaceChars]

/-- C7: on a listing in which every `.tradeoffer` entry has the id attribute
`tradeofferid_<id>` with a non-empty `<id>`, the discovery loop does not throw and the
array `tradeIds` is exactly the `<id>`s of the entries that contain at least one
`.tradeoffer_footer_actions` element, in listing order and with their multiplicity;
an entry without such an element contributes nothing. -/
theorem collectTradeIds_wellFormed (offers : List (String × Nat))
    (h : ∀ p ∈ offers, p.1 ≠ "") :
    (collectTradeIds (offers.map (fun p => ⟨some ("tradeofferid_" ++ p.1), p.2⟩))).2
      = some ((offers.filter (fun p => decide (p.2 > 0))).map Prod.fst) := by
  induction offers with
  | nil => rfl
  | cons p rest ih =>
    have hp : p.1 ≠ "" := h p (List.mem_cons_self _ _)
    have hrest := ih (fun q hq => h q (List.mem_cons_of_mem _ hq))
    simp only [List.map_cons, collectTradeIds, replace_tradeofferid]
    by_cases ha : p.2 > 0
    · simp [ha, hrest, hp, List.filter_cons]
    · simp [ha, hrest, List.filter_cons]

theorem collectTradeIds_wellFormed_witness :
    (collectTradeIds
      ([("11", 1), ("22", 0)].map (fun p => ⟨some ("tradeofferid_" ++ p.1), p.2⟩))).2
      = some (([("11", 1), ("22", 0)].filter (fun p => decide (p.2 > 0))).map Prod.fst) ∧
    (([("11", 1), ("22", 0)] : List (String × Nat)).filter
      (fun p => decide (p.2 > 0))).map Prod.fst = ["11"] :=
  ⟨collectTradeIds_wellFormed [("11", 1), ("22", 0)] (by decide), by decide⟩

/-! ## The link resolver (C5) -/

theorem toList_append (p r : String) : (p ++ r).toList = p.toList ++ r.toList :=
  String.data_append p r

theorem startsWith_append (p r : String) : startsWith (p ++ r) p = true := by
  simp only [startsWith, toList_append, List.isPrefixOf_iff_prefix]
  exact List.prefix_append _ _

theorem substring_append (p r : String) : substring (p ++ r) p.length = r := by
  have h : p.length = p.toList.length := rfl
  simp only [substring, toList_append, h, List.drop_left]
  rfl

theorem startsWith_slash_of_plain (secrets : Secrets) (r : String) :
    startsWith (plainPrefix secrets ++ r) (slashPrefix secrets) = false := by
  have h1 : "/inventory/#".toList = ['/', 'i', 'n', 'v', 'e', 'n', 't', 'o', 'r', 'y', '/', '#'] := by
    decide
  have h2 : "/inventory#".toList = ['/', 'i', 'n', 'v', 'e', 'n', 't', 'o', 'r', 'y', '#'] := by
    decide
  rw [Bool.eq_false_iff]
  intro h
  simp only [startsWith, plainPrefix, slashPrefix, toList_append,
    List.isPrefixOf_iff_prefix, List.append_assoc, List.prefix_append_right_inj, h1, h2] at h
  simp at h

theorem split_three (a c i : String) (ha : '_' ∉ a.toList) (hc : '_' ∉ c.toList)
    (hi : '_' ∉ i.toList) : split (a ++ "_" ++ c ++ "_" ++ i) '_' = [a, c, i] := by
  have h := List.splitOn_intercalate [a.toList, c.toList, i.toList] '_'
    (by intro l hl; simp at hl; rcases hl with rfl | rfl | rfl <;> assumption) (by simp)
  have hu : "_".toList = ['_'] := by decide
  have e : (a ++ "_" ++ c ++ "_" ++ i).toList
      = ['_'].intercalate [a.toList, c.toList, i.toList] := by
    simp only [toList_append, hu, List.intercalate, List.intersperse, List.flatten]
    simp
  simp only [split, e, h, List.map]
  rfl

theorem pick_spec (itemId : String) (items : List Item) :
    ∀ acc : Option Item,
      (items.foldl (fun result item => if item.id = itemId then some item else result) acc = acc
          ∧ ∀ item ∈ items, item.id ≠ itemId) ∨
      ∃ r ∈ items, r.id = itemId ∧
        items.foldl (fun result item => if item.id = itemId then some item else result) acc
          = some r := by
  induction items with
  | nil => intro acc; left; simp
  | cons x xs ih =>
    intro acc
    simp only [List.foldl_cons]
    by_cases hx : x.id = itemId
    · simp only [hx, if_true]
      rcases ih (some x) with ⟨h1, h2⟩ | ⟨r, hr, hid, hres⟩
      · right
        exact ⟨x, List.mem_cons_self _ _, hx, h1⟩
      · right
        exact ⟨r, List.mem_cons_of_mem _ hr, hid, hres⟩
    · simp only [hx, if_false]
      rcases ih acc with ⟨h1, h2⟩ | ⟨r, hr, hid, hres⟩
      · left
        refine ⟨h1, ?_⟩
        intro item hitem
        rcases List.mem_cons.mp hitem with rfl | h
        · exact hx
        · exact h2 item h
      · right
        exact ⟨r, List.mem_cons_of_mem _ hr, hid, hres⟩

theorem inventoryLoaded_found (itemId : String) (items : List Item)
    (h : ∃ item ∈ items, item.id = itemId) :
    ∃ r, inventoryLoaded itemId (some items) = some r ∧ r ∈ items ∧ r.id = itemId := by
  rcases pick_spec itemId items none with ⟨_, h2⟩ | ⟨r, hr, hid, hres⟩
  · obtain ⟨item, hitem, hid⟩ := h
    exact absurd hid (h2 item hitem)
  · exact ⟨r, hres, hr, hid⟩

theorem inventoryLoaded_none (itemId : String) (items : Option (List Item))
    (h : inventoryLoaded itemId items = none) :
    items = none ∨ ∃ l, items = some l ∧ ∀ item ∈ l, item.id ≠ itemId := by
  cases items with
  | none => left; rfl
  | some l =>
    right
    refine ⟨l, rfl, ?_⟩
    rcases pick_spec itemId l none with ⟨_, h2⟩ | ⟨r, _, _, hres⟩
    · exact h2
    · simp [inventoryLoaded, hres] at h

theorem parse_slash (secrets : Secrets) (rest : String) :
    parseInventoryLink secrets (slashPrefix secrets ++ rest)
      = if rest = "" then ([.info ("Parsed item details " ++ rest)], .callback none)
        else
          match split rest '_' with
          | [appId, contextId, itemId] =>
            ([.info ("Parsed item details " ++ rest), .info "Split item details"],
              .loadInventory appId contextId itemId)
          | _ =>
            ([.info ("Parsed item details " ++ rest), .info "Split item details"],
              .callback none) := by
  simp only [parseInventoryLink, startsWith_append, substring_append, Bool.not_true,
    Bool.false_eq_true, if_false]

theorem parse_plain (secrets : Secrets) (rest : String) :
    parseInventoryLink secrets (plainPrefix secrets ++ rest)
      = if rest = "" then ([.info ("Parsed item details " ++ rest)], .callback none)
        else
          match split rest '_' with
          | [appId, contextId, itemId] =>
            ([.info ("Parsed item details " ++ rest), .info "Split item details"],
              .loadInventory appId contextId itemId)
          | _ =>
            ([.info ("Parsed item details " ++ rest), .info "Split item details"],
              .callback none) := by
  simp only [parseInventoryLink, startsWith_slash_of_plain, startsWith_append,
    substring_append, Bool.not_true, Bool.not_false, Bool.false_eq_true, if_false, if_true]

theorem parse_malformed (secrets : Secrets) (pre rest : String)
    (hpre : pre = slashPrefix secrets ∨ pre = plainPrefix secrets)
    (h : (split rest '_').length ≠ 3) :
    (parseInventoryLink secrets (pre ++ rest)).2 = .callback none := by
  have key : (if rest = "" then
        (([Effect.info ("Parsed item details " ++ rest)], Parsed.callback none) :
          List Effect × Parsed)
      else
        match split rest '_' with
        | [appId, contextId, itemId] =>
          ([.info ("Parsed item details " ++ rest), .info "Split item details"],
            .loadInventory appId contextId itemId)
        | _ =>
          ([.info ("Parsed item details " ++ rest), .info "Split item details"],
            .callback none)).2 = .callback none := by
    split
    · rfl
    · split
      · rename_i heq
        rw [heq] at h
        simp at h
      · rfl
  rcases hpre with rfl | rfl
  · rw [parse_slash]; exact key
  · rw [parse_plain]; exact key

theorem parse_wellFormed (secrets : Secrets) (pre appId contextId itemId : String)
    (hpre : pre = slashPrefix secrets ∨ pre = plainPrefix secrets)
    (ha : '_' ∉ appId.toList) (hc : '_' ∉ contextId.toList) (hi : '_' ∉ itemId.toList) :
    (parseInventoryLink secrets (pre ++ (appId ++ "_" ++ contextId ++ "_" ++ itemId))).2
      = .loadInventory appId contextId itemId := by
  have hne : appId ++ "_" ++ contextId ++ "_" ++ itemId ≠ "" := by
    intro h
    have := congrArg String.toList h
    have hu : "_".toList = ['_'] := by decide
    simp only [toList_append, hu] at this
    have h0 : "".toList = [] := rfl
    rw [h0] at this
    simp at this
  rcases hpre with rfl | rfl
  · rw [parse_slash, if_neg hne, split_three _ _ _ ha hc hi]
  · rw [parse_plain, if_neg hne, split_three _ _ _ ha hc hi]

/-- C5: for identifiers without `_` and either accepted prefix, `parseInventoryLink`
on `prefix + appId + '_' + contextId + '_' + itemId` calls `loadInventory` for exactly
`(appId, contextId)` with a callback looking for `itemId`, and when the snapshot holds
an item with that id the callback hands on an item of the snapshot whose id is
`itemId`; and for every link whose remainder after the prefix does not split on `_`
into exactly three fields it calls back with no item. -/
theorem parseInventoryLink_roundtrip (secrets : Secrets) (appId contextId itemId : String)
    (ha : '_' ∉ appId.toList) (hc : '_' ∉ contextId.toList) (hi : '_' ∉ itemId.toList) :
    (parseInventoryLink secrets
        (slashPrefix secrets ++ appId ++ "_" ++ contextId ++ "_" ++ itemId)).2
      = .loadInventory appId contextId itemId ∧
    (parseInventoryLink secrets
        (plainPrefix secrets ++ appId ++ "_" ++ contextId ++ "_" ++ itemId)).2
      = .loadInventory appId contextId itemId ∧
    (∀ items : List Item, (∃ item ∈ items, item.id = itemId) →
      ∃ r, inventoryLoaded itemId (some items) = some r ∧ r ∈ items ∧ r.id = itemId) ∧
    (∀ pre rest : String, pre = slashPrefix secrets ∨ pre = plainPrefix secrets →
      (split rest '_').length ≠ 3 →
      (parseInventoryLink secrets (pre ++ rest)).2 = .callback none) := by
  have hassoc : ∀ pre : String,
      pre ++ appId ++ "_" ++ contextId ++ "_" ++ itemId
        = pre ++ (appId ++ "_" ++ contextId ++ "_" ++ itemId) := by
    intro pre
    simp only [String.append_assoc]
  rw [hassoc, hassoc]
  exact ⟨parse_wellFormed secrets _ appId contextId itemId (Or.inl rfl) ha hc hi,
    parse_wellFormed secrets _ appId contextId itemId (Or.inr rfl) ha hc hi,
    fun items h => inventoryLoaded_found itemId items h,
    fun pre rest hpre h => parse_malformed secrets pre rest hpre h⟩

theorem parseInventoryLink_roundtrip_witness :
    (parseInventoryLink ⟨"trashbot", "owner", [], []⟩
        (slashPrefix ⟨"trashbot", "owner", [], []⟩
          ++ "730" ++ "_" ++ "2" ++ "_" ++ "123456789")).2
      = .loadInventory "730" "2" "123456789" ∧
    (∃ r, inventoryLoaded "123456789" (some [⟨"5", "crate"⟩, ⟨"123456789", "key"⟩]) = some r ∧
      r ∈ [(⟨"5", "crate"⟩ : Item), ⟨"123456789", "key"⟩] ∧ r.id = "123456789") :=
  ⟨(parseInventoryLink_roundtrip ⟨"trashbot", "owner", [], []⟩ "730" "2" "123456789"
      (by decide) (by decide) (by decide)).1,
    (parseInventoryLink_roundtrip ⟨"trashbot", "owner", [], []⟩ "730" "2" "123456789"
      (by decide) (by decide) (by decide)).2.2.1 _ ⟨⟨"123456789", "key"⟩, by decide, rfl⟩⟩

/-! ## Replies to chat lines (C4) -/

theorem tradeCalls_append (es fs : List Effect) :
    tradeCalls (es ++ fs) = tradeCalls es ++ tradeCalls fs := by
  induction es with
  | nil => rfl
  | cons e es ih => cases e <;> simp [tradeCalls, ih]

theorem parse_logs (secrets : Secrets) (message : String) :
    tradeCalls (parseInventoryLink secrets message).1 = [] := by
  unfold parseInventoryLink
  simp only
  split_ifs <;> first | rfl | (split <;> rfl)

theorem startsWith_plain_of_slash (secrets : Secrets) (message : String)
    (h : startsWith message (slashPrefix secrets) = true) :
    startsWith message (plainPrefix secrets) = false := by
  have h1 : "/inventory/#".toList = ['/', 'i', 'n', 'v', 'e', 'n', 't', 'o', 'r', 'y', '/', '#'] := by
    decide
  have h2 : "/inventory#".toList = ['/', 'i', 'n', 'v', 'e', 'n', 't', 'o', 'r', 'y', '#'] := by
    decide
  rw [Bool.eq_false_iff]
  intro h'
  simp only [startsWith, plainPrefix, slashPrefix, toList_append,
    List.isPrefixOf_iff_prefix, h1, h2] at h h'
  obtain ⟨r, hr⟩ := h
  obtain ⟨r', hr'⟩ := h'
  rw [← hr'] at hr
  simp at hr

theorem parse_cases (secrets : Secrets) (message : String) :
    ((parseInventoryLink secrets message).2 = .callback none
        ∧ wellFormedLink secrets message = false) ∨
    ∃ appId contextId itemId,
      (parseInventoryLink secrets message).2 = .loadInventory appId contextId itemId
        ∧ wellFormedLink secrets message = true := by
  unfold parseInventoryLink wellFormedLink
  by_cases hs : startsWith message (slashPrefix secrets) = true
  · have hp := startsWith_plain_of_slash secrets message hs
    simp only [hs, hp, Bool.not_true, Bool.false_eq_true, if_false, Bool.true_and,
      Bool.false_and, Bool.or_false]
    split
    · rename_i he
      left
      refine ⟨rfl, ?_⟩
      rw [he]
      decide
    · split
      · rename_i a c i heq
        right
        exact ⟨a, c, i, rfl, by rw [heq]; rfl⟩
      · rename_i hne
        left
        refine ⟨rfl, ?_⟩
        rcases hsp : split (substring message (slashPrefix secrets).length) '_' with
          _ | ⟨a, _ | ⟨c, _ | ⟨i, _ | ⟨x, l⟩⟩⟩⟩
        · rfl
        · rfl
        · rfl
        · exact absurd hsp (hne a c i)
        · rfl
  · have hs' : startsWith message (slashPrefix secrets) = false := by
      simpa using hs
    simp only [hs', Bool.not_false, if_true, Bool.false_and, Bool.false_or]
    by_cases hp : startsWith message (plainPrefix secrets) = true
    · simp only [hp, Bool.not_true, Bool.false_eq_true, if_false, Bool.true_and]
      split
      · rename_i he
        left
        refine ⟨rfl, ?_⟩
        rw [he]
        decide
      · split
        · rename_i a c i heq
          right
          exact ⟨a, c, i, rfl, by rw [heq]; rfl⟩
        · rename_i hne
          left
          refine ⟨rfl, ?_⟩
          rcases hsp : split (substring message (plainPrefix secrets).length) '_' with
            _ | ⟨a, _ | ⟨c, _ | ⟨i, _ | ⟨x, l⟩⟩⟩⟩
          · rfl
          · rfl
          · rfl
          · exact absurd hsp (hne a c i)
          · rfl
    · have hp' : startsWith message (plainPrefix secrets) = false := by
        simpa using hp
      left
      simp [hp']

theorem itemNotFound_ne_badLink (secrets : Secrets) :
    itemNotFoundMessage ≠ badLinkMessage secrets := by
  intro h
  have h1 := congrArg (fun s : String => s.toList.take 3) h
  have h2 : itemNotFoundMessage.toList.take 3 = ['I', ' ', 'c'] := by decide
  have h3 : "I don't recognise that link. ".toList.take 3 = ['I', ' ', 'd'] := by decide
  have h4 : "I don't recognise that link. ".toList.length = 29 := by decide
  simp only [badLinkMessage, toList_append] at h1
  rw [List.take_append_of_le_length (by rw [h4]; omega), h2, h3] at h1
  simp at h1

theorem itemNotFound_ne_wrongLink : itemNotFoundMessage ≠ wrongLinkMessage := by
  decide

theorem onChatMsg_calls (secrets : Secrets) (i : Nat) (t : Trade) (message : String) :
    tradeCalls (onChatMsg secrets i t message).2 =
      if !startsWith message (inventoryRoot secrets) then [.chatMsg (badLinkMessage secrets)]
      else if message = inventoryRoot secrets ++ "/" then [.chatMsg wrongLinkMessage]
      else
        match (parseInventoryLink secrets message).2 with
        | .callback none => [.chatMsg itemNotFoundMessage]
        | .callback (some item) => [.addItems [item]]
        | .loadInventory appId contextId _ => [.loadInventory appId contextId] := by
  unfold onChatMsg
  split_ifs
  · simp [tradeCalls]
  · simp [tradeCalls]
  · have hl := parse_logs secrets message
    rcases hp : parseInventoryLink secrets message with ⟨logs, p⟩
    rw [hp] at hl
    simp only at hl
    cases p with
    | callback item =>
      cases item <;> simp [tradeCalls, tradeCalls_append, hl, onItem]
    | loadInventory a c x => simp [tradeCalls, tradeCalls_append, hl]

/-- C4 as stated fails: a chat line that begins with the `/inventory/#` prefix but
has only two fields is answered with the item-not-found message, which is neither
the wrong-link nor the bad-link message, and no inventory was loaded. -/
theorem malformed_link_gets_item_not_found :
    wellFormedLink ⟨"trashbot", "owner", [], []⟩
      "http://steamcommunity.com/id/trashbot/inventory/#730_2" = false ∧
    tradeCalls (stepTrade ⟨"trashbot", "owner", [], []⟩ false 0
        ⟨"peer", some "s1", ["a=b"], .negotiating, [], 0, 0, 0⟩
        (.chatMsg "http://steamcommunity.com/id/trashbot/inventory/#730_2")).2
      = [.chatMsg itemNotFoundMessage] ∧
    itemNotFoundMessage ≠ wrongLinkMessage ∧
    itemNotFoundMessage ≠ badLinkMessage ⟨"trashbot", "owner", [], []⟩ := by
  decide

/-- C4 amended: a chat line with a wrong link format received by a negotiating trade
session gets exactly one reply and loads no inventory; the reply is the bad-link
message when the line does not begin with `.../inventory`, the wrong-link message
when the line is exactly `.../inventory/`, and the item-not-found message in every
other case.  The item-not-found message is sent in answer to a chat line only when
its format is wrong, and by the callback of an inventory load only when the load
returned nothing or the snapshot holds no item with the requested id. -/
theorem chat_replies (secrets : Secrets) (paused : Bool) (i : Nat) (t : Trade)
    (message : String) (hphase : t.phase = .negotiating) :
    (wellFormedLink secrets message = false →
      tradeCalls (stepTrade secrets paused i t (.chatMsg message)).2
        = [.chatMsg
            (if !startsWith message (inventoryRoot secrets) then badLinkMessage secrets
             else if message = inventoryRoot secrets ++ "/" then wrongLinkMessage
             else itemNotFoundMessage)]) ∧
    (TradeCall.chatMsg itemNotFoundMessage
        ∈ tradeCalls (stepTrade secrets paused i t (.chatMsg message)).2 →
      wellFormedLink secrets message = false) ∧
    (∀ k items,
      TradeCall.chatMsg itemNotFoundMessage
        ∈ tradeCalls (stepTrade secrets paused i t (.inventory k items)).2 →
      items = none ∨
        ∃ l itemId, items = some l ∧ t.loads.get? k = some itemId
          ∧ ∀ item ∈ l, item.id ≠ itemId) := by
  have hstep : stepTrade secrets paused i t (.chatMsg message)
      = onChatMsg secrets i t message := by
    simp [stepTrade, hphase]
  refine ⟨?_, ?_, ?_⟩
  · intro hw
    rw [hstep, onChatMsg_calls]
    split_ifs
    · rfl
    · rfl
    · rcases parse_cases secrets message with ⟨h1, _⟩ | ⟨a, c, x, _, h2⟩
      · rw [h1]
      · rw [hw] at h2
        exact absurd h2 (by decide)
  · intro hmem
    rw [hstep, onChatMsg_calls] at hmem
    split_ifs at hmem with h1 h2
    · simp only [List.mem_singleton, TradeCall.chatMsg.injEq] at hmem
      exact absurd hmem (itemNotFound_ne_badLink secrets)
    · simp only [List.mem_singleton, TradeCall.chatMsg.injEq] at hmem
      exact absurd hmem itemNotFound_ne_wrongLink
    · rcases parse_cases secrets message with ⟨_, h2⟩ | ⟨a, c, x, h1, _⟩
      · exact h2
      · rw [h1] at hmem
        simp at hmem
  · intro k items hmem
    simp only [stepTrade] at hmem
    rcases hk : t.loads.get? k with _ | itemId
    · rw [hk] at hmem
      simp [tradeCalls] at hmem
    · rw [hk] at hmem
      simp only at hmem
      rcases hr : inventoryLoaded itemId items with _ | item
      · rcases inventoryLoaded_none itemId items hr with h | ⟨l, hl, hno⟩
        · exact Or.inl h
        · exact Or.inr ⟨l, itemId, hl, rfl, hno⟩
      · rw [hr] at hmem
        simp [onItem, tradeCalls] at hmem

theorem chat_replies_witness :
    tradeCalls (stepTrade ⟨"trashbot", "owner", [], []⟩ false 0
        ⟨"peer", some "s1", ["a=b"], .negotiating, [], 0, 0, 0⟩
        (.chatMsg "http://steamcommunity.com/id/trashbot/inventory/foo")).2
      = [.chatMsg
          (if !startsWith "http://steamcommunity.com/id/trashbot/inventory/foo"
                (inventoryRoot ⟨"trashbot", "owner", [], []⟩) then
              badLinkMessage ⟨"trashbot", "owner", [], []⟩
           else if "http://steamcommunity.com/id/trashbot/inventory/foo"
                = inventoryRoot ⟨"trashbot", "owner", [], []⟩ ++ "/" then wrongLinkMessage
           else itemNotFoundMessage)] :=
  (chat_replies ⟨"trashbot", "owner", [], []⟩ false 0
    ⟨"peer", some "s1", ["a=b"], .negotiating, [], 0, 0, 0⟩
    "http://steamcommunity.com/id/trashbot/inventory/foo" rfl).1 (by decide)

/-! ## Instructions before readiness (C8) -/

theorem step_ready_phase (secrets : Secrets) (paused : Bool) (i : Nat) (t : Trade)
    (ev : TradeEvent)
    (h : TradeCall.ready ∈ tradeCalls (stepTrade secrets paused i t ev).2
      ∨ TradeCall.confirm ∈ tradeCalls (stepTrade secrets paused i t ev).2) :
    t.phase = .negotiating ∨ t.readies ≠ 0 := by
  by_cases hp : t.phase = .negotiating
  · exact Or.inl hp
  · right
    intro hr
    cases ev with
    | opened =>
      simp only [stepTrade] at h
      split at h
      · cases paused <;> simp [tradeCalls] at h
      · simp [tradeCalls] at h
    | chatAcked =>
      simp only [stepTrade] at h
      split at h <;> simp [tradeCalls] at h
    | ready => simp [stepTrade, hp, tradeCalls] at h
    | chatMsg message => simp [stepTrade, hp, tradeCalls] at h
    | tradeEnd status => simp [stepTrade, hp, tradeCalls] at h
    | inventory k items =>
      simp only [stepTrade] at h
      split at h
      · simp [tradeCalls] at h
      · simp only [onItem] at h
        split at h <;> simp [tradeCalls] at h
    | added res =>
      simp only [stepTrade] at h
      split at h <;> simp [tradeCalls] at h
    | readyDone =>
      simp only [stepTrade, hr, if_true] at h
      simp [tradeCalls] at h
    | confirmDone =>
      simp only [stepTrade] at h
      split at h <;> simp [tradeCalls] at h

theorem onItem_keeps (i : Nat) (t : Trade) (item : Option Item) :
    (onItem i t item).1.phase = t.phase ∧ (onItem i t item).1.readies = t.readies := by
  cases item <;> simp [onItem]

theorem onChatMsg_keeps (secrets : Secrets) (i : Nat) (t : Trade) (message : String) :
    (onChatMsg secrets i t message).1.phase = t.phase
      ∧ (onChatMsg secrets i t message).1.readies = t.readies := by
  unfold onChatMsg
  split_ifs
  · exact ⟨rfl, rfl⟩
  · exact ⟨rfl, rfl⟩
  · split
    · exact onItem_keeps _ _ _
    · exact ⟨rfl, rfl⟩

theorem sublist_grow {α : Type} (l a b : List α) (h : List.Sublist l a) :
    List.Sublist l (a ++ b) :=
  h.trans (List.sublist_append_left a b)

theorem instructed_of_same (secrets : Secrets) (t t2 : Trade) (evs evs2 : List TradeEvent)
    (calls calls2 : List TradeCall) (hp : t2.phase = t.phase)
    (hr : t.phase ≠ .negotiating → t2.readies = t.readies)
    (h : Instructed secrets t evs calls) :
    Instructed secrets t2 (evs ++ evs2) (calls ++ calls2) := by
  unfold Instructed at h ⊢
  rw [hp]
  rcases hph : t.phase
  · rw [hph] at h
    simp only at h ⊢
    rw [hr (by rw [hph]; decide)]
    exact h
  · rw [hph] at h
    simp only at h ⊢
    rw [hr (by rw [hph]; decide)]
    exact ⟨h.1, sublist_grow _ _ _ h.2.1, sublist_grow _ _ _ h.2.2⟩
  · rw [hph] at h
    simp only at h ⊢
    rw [hr (by rw [hph]; decide)]
    exact ⟨h.1, sublist_grow _ _ _ h.2.1, sublist_grow _ _ _ h.2.2⟩
  · rw [hph] at h
    simp only at h ⊢
    exact ⟨sublist_grow _ _ _ h.1, sublist_grow _ _ _ h.2⟩

theorem step_instructed (secrets : Secrets) (paused : Bool) (i : Nat) (t : Trade)
    (ev : TradeEvent) (evs : List TradeEvent) (calls : List TradeCall)
    (h : Instructed secrets t evs calls) :
    Instructed secrets (stepTrade secrets paused i t ev).1 (evs ++ [ev])
      (calls ++ tradeCalls (stepTrade secrets paused i t ev).2) := by
  cases ev with
  | opened =>
    rcases hph : t.phase
    · unfold Instructed
      simp only [stepTrade, hph]
      refine ⟨?_, List.sublist_append_right _ _, ?_⟩
      · unfold Instructed at h
        rw [hph] at h
        exact h
      · cases paused <;> simp [tradeCalls]
    all_goals
      apply instructed_of_same secrets t _ _ _ _ _ _ _ h <;> simp [stepTrade, hph]
  | chatAcked =>
    rcases hph : t.phase
    · apply instructed_of_same secrets t _ _ _ _ _ _ _ h <;> simp [stepTrade, hph]
    · unfold Instructed at h ⊢
      rw [hph] at h
      simp only [stepTrade, hph, tradeCalls]
      exact ⟨h.1, h.2.1.append (List.Sublist.refl _), h.2.2.append (List.Sublist.refl _)⟩
    · unfold Instructed at h ⊢
      rw [hph] at h
      simp only [stepTrade, hph, tradeCalls]
      exact ⟨h.2.1.append (List.Sublist.refl _), sublist_grow _ _ _ h.2.2⟩
    · apply instructed_of_same secrets t _ _ _ _ _ _ _ h <;> simp [stepTrade, hph]
  | ready =>
    apply instructed_of_same secrets t _ _ _ _ _ _ _ h
    · simp only [stepTrade]; split <;> rfl
    · intro hne
      simp [stepTrade, hne]
  | chatMsg message =>
    apply instructed_of_same secrets t _ _ _ _ _ _ _ h
    · simp only [stepTrade]
      split
      · exact (onChatMsg_keeps _ _ _ _).1
      · rfl
    · intro hne
      simp [stepTrade, hne]
  | tradeEnd status =>
    apply instructed_of_same secrets t _ _ _ _ _ _ _ h
    · simp only [stepTrade]; split <;> rfl
    · intro hne
      simp only [stepTrade]
  | inventory k items =>
    apply instructed_of_same secrets t _ _ _ _ _ _ _ h
    · simp only [stepTrade]
      split
      · rfl
      · exact (onItem_keeps _ _ _).1
    · intro _
      simp only [stepTrade]
      split
      · rfl
      · exact (onItem_keeps _ _ _).2
  | added res =>
    apply instructed_of_same secrets t _ _ _ _ _ _ _ h
    · simp only [stepTrade]; split <;> rfl
    · intro hne
      simp only [stepTrade]
      try (split <;> rfl)
  | readyDone =>
    apply instructed_of_same secrets t _ _ _ _ _ _ _ h
    · simp only [stepTrade]; split <;> rfl
    · intro hne
      have hr : t.readies = 0 := by
        unfold Instructed at h
        rcases hph : t.phase <;> rw [hph] at h
        · exact h
        · exact h.1
        · exact h.1
        · exact absurd hph hne
      simp [stepTrade, hr]
  | confirmDone =>
    apply instructed_of_same secrets t _ _ _ _ _ _ _ h
    · simp only [stepTrade]; split <;> rfl
    · intro hne
      simp only [stepTrade]
      try (split <;> rfl)

theorem run_instructed (secrets : Secrets) (i : Nat) (evs : List (Bool × TradeEvent)) :
    ∀ (t : Trade) (past : List TradeEvent) (calls : List TradeCall),
      Instructed secrets t past calls →
      Instructed secrets (runTrade secrets i t evs).1 (past ++ evs.map Prod.snd)
        (calls ++ tradeCalls (runTrade secrets i t evs).2) := by
  induction evs with
  | nil =>
    intro t past calls h
    simpa [runTrade, tradeCalls] using h
  | cons pe rest ih =>
    intro t past calls h
    obtain ⟨paused, ev⟩ := pe
    have h1 := step_instructed secrets paused i t ev past calls h
    have h2 := ih _ _ _ h1
    simpa [runTrade, tradeCalls_append, List.append_assoc] using h2

/-- C8: on a `SteamTrade` object as the `sessionStart` handler creates it, whatever
events arrive and in whatever order, an event makes the script call `ready()` or
`confirm()` only after the callback of `open` and then two acknowledgements of
instructional messages have run, and after `chatMsg(sendInstructions)` and then
`chatMsg(takeInstructions)` were called; and as long as the second acknowledgement
has not run, a `ready` event and any chat line from the peer change nothing and
cause no call at all. -/
theorem ready_only_after_instructions (secrets : Secrets) (i : Nat)
    (steamId : String) (sessionID : Option String) (cookies : List String)
    (evs : List (Bool × TradeEvent)) (paused : Bool) :
    (∀ ev : TradeEvent,
      (TradeCall.ready ∈ tradeCalls (stepTrade secrets paused i
            (runTrade secrets i ⟨steamId, sessionID, cookies, .opening, [], 0, 0, 0⟩ evs).1 ev).2
        ∨ TradeCall.confirm ∈ tradeCalls (stepTrade secrets paused i
            (runTrade secrets i ⟨steamId, sessionID, cookies, .opening, [], 0, 0, 0⟩ evs).1 ev).2) →
      List.Sublist [TradeEvent.opened, .chatAcked, .chatAcked] (evs.map Prod.snd) ∧
      List.Sublist [TradeCall.chatMsg sendInstructions, .chatMsg (takeInstructions secrets)]
        (tradeCalls (runTrade secrets i
          ⟨steamId, sessionID, cookies, .opening, [], 0, 0, 0⟩ evs).2)) ∧
    (¬ List.Sublist [TradeEvent.opened, .chatAcked, .chatAcked] (evs.map Prod.snd) →
      ∀ ev : TradeEvent, (ev = .ready ∨ ∃ message, ev = .chatMsg message) →
        stepTrade secrets paused i
            (runTrade secrets i ⟨steamId, sessionID, cookies, .opening, [], 0, 0, 0⟩ evs).1 ev
          = ((runTrade secrets i
              ⟨steamId, sessionID, cookies, .opening, [], 0, 0, 0⟩ evs).1, [])) := by
  have hinv := run_instructed secrets i evs
    ⟨steamId, sessionID, cookies, .opening, [], 0, 0, 0⟩ [] [] (by simp [Instructed])
  simp only [List.nil_append] at hinv
  have hneg : (runTrade secrets i
        ⟨steamId, sessionID, cookies, .opening, [], 0, 0, 0⟩ evs).1.phase = .negotiating →
      List.Sublist [TradeEvent.opened, .chatAcked, .chatAcked] (evs.map Prod.snd) ∧
      List.Sublist [TradeCall.chatMsg sendInstructions, .chatMsg (takeInstructions secrets)]
        (tradeCalls (runTrade secrets i
          ⟨steamId, sessionID, cookies, .opening, [], 0, 0, 0⟩ evs).2) := by
    intro hp
    unfold Instructed at hinv
    rw [hp] at hinv
    exact hinv
  have hzero : (runTrade secrets i
        ⟨steamId, sessionID, cookies, .opening, [], 0, 0, 0⟩ evs).1.phase ≠ .negotiating →
      (runTrade secrets i
        ⟨steamId, sessionID, cookies, .opening, [], 0, 0, 0⟩ evs).1.readies = 0 := by
    intro hp
    unfold Instructed at hinv
    rcases hph : (runTrade secrets i
        ⟨steamId, sessionID, cookies, .opening, [], 0, 0, 0⟩ evs).1.phase
    · rw [hph] at hinv
      exact hinv
    · rw [hph] at hinv
      exact hinv.1
    · rw [hph] at hinv
      exact hinv.1
    · exact absurd hph hp
  refine ⟨fun ev h => ?_, fun hsub ev hev => ?_⟩
  · rcases step_ready_phase secrets paused i _ ev h with hp | hr
    · exact hneg hp
    · by_cases hp : (runTrade secrets i
          ⟨steamId, sessionID, cookies, .opening, [], 0, 0, 0⟩ evs).1.phase = .negotiating
      · exact hneg hp
      · exact absurd (hzero hp) hr
  · have hp : (runTrade secrets i
          ⟨steamId, sessionID, cookies, .opening, [], 0, 0, 0⟩ evs).1.phase ≠ .negotiating :=
      fun hp => hsub (hneg hp).1
    rcases hev with rfl | ⟨message, rfl⟩
    · simp [stepTrade, hp]
    · simp [stepTrade, hp]

theorem ready_only_after_instructions_witness :
    List.Sublist [TradeEvent.opened, .chatAcked, .chatAcked]
      ([(false, TradeEvent.opened), (false, .chatMsg "hi"), (false, .chatAcked),
        (false, .ready), (false, .chatAcked)].map Prod.snd) ∧
    List.Sublist
      [TradeCall.chatMsg sendInstructions,
       .chatMsg (takeInstructions ⟨"trashbot", "owner", [], []⟩)]
      (tradeCalls (runTrade ⟨"trashbot", "owner", [], []⟩ 0
        ⟨"peer", some "s1", ["a=b"], .opening, [], 0, 0, 0⟩
        [(false, TradeEvent.opened), (false, .chatMsg "hi"), (false, .chatAcked),
         (false, .ready), (false, .chatAcked)]).2) :=
  (ready_only_after_instructions ⟨"trashbot", "owner", [], []⟩ 0 "peer" (some "s1") ["a=b"]
    [(false, TradeEvent.opened), (false, .chatMsg "hi"), (false, .chatAcked),
     (false, .ready), (false, .chatAcked)] false).1 .ready (Or.inl (by decide))

/-! ## The web session id and the cookies (C9) -/

/-- C9 as stated fails: after one complete web login (session id s1, cookies c1) a
second `webSessionID` event (s2) replaces the session id while `canTrade` stays true
and the old cookies stay in place; a `sessionStart` handled then, before the second
`webLogOn` has called back, opens a trade session with session id s2 and the cookies
of s1, a pair that no web-login cycle published. -/
theorem session_id_and_cookies_of_different_cycles :
    (step ⟨"trashbot", "owner", [], []⟩
        (run ⟨"trashbot", "owner", [], []⟩ State.init
          [.webSessionID "s1", .webLogOn 0 ["c1=x"], .webSessionID "s2"]).1
        (.sessionStart "peer")).1.trades
      = [⟨"peer", some "s2", ["c1=x"], .opening, [], 0, 0, 0⟩] ∧
    (Logins.run Logins.init
        [.webSessionID "s1", .webLogOn 0 ["c1=x"], .webSessionID "s2"]).completed
      = [("s1", ["c1=x"])] ∧
    (Logins.run Logins.init
        [.webSessionID "s1", .webLogOn 0 ["c1=x"], .webSessionID "s2"]).outstanding
      = ["s2"] ∧
    ("s2", ["c1=x"]) ∉ (Logins.run Logins.init
        [.webSessionID "s1", .webLogOn 0 ["c1=x"], .webSessionID "s2"]).completed := by
  decide

/-- What ties the globals to the web-login cycles. -/
theorem step_logins (secrets : Secrets) (s : State) (l : Logins) (ev : Event)
    (h : s.webLogOns = l.outstanding.length ∧ s.webSessionId = l.latest
      ∧ s.cookies = (l.completed.getLast?).map Prod.snd
      ∧ (s.canTrade = true → l.completed ≠ [])) :
    (step secrets s ev).1.webLogOns = (l.step ev).outstanding.length
      ∧ (step secrets s ev).1.webSessionId = (l.step ev).latest
      ∧ (step secrets s ev).1.cookies = ((l.step ev).completed.getLast?).map Prod.snd
      ∧ ((step secrets s ev).1.canTrade = true → (l.step ev).completed ≠ []) := by
  obtain ⟨h1, h2, h3, h4⟩ := h
  cases ev with
  | loggedOn => simp [step, onLoggedOn, Logins.step, h1, h2, h3]
  | error => simp [step, onError, Logins.step, h1, h2, h3]
  | loggedOff => simp [step, onLoggedOff, Logins.step, h1, h2, h3]
  | friendMsg userId message entryType =>
    simp only [step, onFriendMsg, acceptAllTradeOffers, Logins.step]
    split_ifs <;> exact ⟨h1, h2, h3, h4⟩
  | tradeProposed tradeId steamId =>
    simp only [step, onTradeProposed, Logins.step]
    split_ifs <;> exact ⟨h1, h2, h3, h4⟩
  | webSessionID sessionId =>
    simp only [step, onWebSessionID, Logins.step, List.length_append, List.length_singleton]
    exact ⟨by rw [h1], trivial, h3, h4⟩
  | webLogOn k newCookies =>
    simp only [step, Logins.step]
    by_cases hk : k < s.webLogOns
    · have hk' : k < l.outstanding.length := h1 ▸ hk
      have hg : l.outstanding.get? k = some (l.outstanding.get ⟨k, hk'⟩) :=
        List.get?_eq_get hk'
      simp only [hk, if_true, onWebLogOn, hg]
      refine ⟨?_, h2, ?_, ?_⟩
      · rw [List.length_eraseIdx, if_pos hk', h1]
      · simp
      · intro _
        simp
    · have hg : l.outstanding.get? k = none := by
        rw [List.get?_eq_none]
        omega
      simp only [hk, if_false, hg]
      exact ⟨h1, h2, h3, h4⟩
  | sessionStart steamId =>
    simp only [step, onSessionStart, Logins.step]
    split_ifs <;> exact ⟨h1, h2, h3, h4⟩
  | tradeOffers numOffers =>
    simp only [step, onTradeOffers, Logins.step]
    split_ifs <;> exact ⟨h1, h2, h3, h4⟩
  | timer =>
    simp only [step, acceptAllTradeOffers, Logins.step]
    split_ifs <;> exact ⟨h1, h2, h3, h4⟩
  | listing error body phantoms =>
    simp only [step, onListing, Logins.step]
    split_ifs
    · exact ⟨h1, h2, h3, h4⟩
    · exact ⟨h1, h2, h3, h4⟩
    · split
      · exact ⟨h1, h2, h3, h4⟩
      · split <;> exact ⟨h1, h2, h3, h4⟩
  | trade i ev =>
    simp only [step, Logins.step]
    split <;> exact ⟨h1, h2, h3, h4⟩

theorem run_logins (secrets : Secrets) (evs : List Event) :
    ∀ (s : State) (l : Logins),
      (s.webLogOns = l.outstanding.length ∧ s.webSessionId = l.latest
        ∧ s.cookies = (l.completed.getLast?).map Prod.snd
        ∧ (s.canTrade = true → l.completed ≠ [])) →
      ((run secrets s evs).1.webLogOns = (l.run evs).outstanding.length
        ∧ (run secrets s evs).1.webSessionId = (l.run evs).latest
        ∧ (run secrets s evs).1.cookies = ((l.run evs).completed.getLast?).map Prod.snd
        ∧ ((run secrets s evs).1.canTrade = true → (l.run evs).completed ≠ [])) := by
  induction evs with
  | nil => intro s l h; exact h
  | cons ev rest ih =>
    intro s l h
    simp only [run, Logins.run]
    exact ih _ _ (step_logins secrets s l ev h)

theorem step_latest (l : Logins) (ev : Event)
    (h : (l.completed ≠ [] ∨ l.outstanding ≠ []) → l.latest ≠ none) :
    ((l.step ev).completed ≠ [] ∨ (l.step ev).outstanding ≠ []) → (l.step ev).latest ≠ none := by
  cases ev with
  | webSessionID sessionId => simp [Logins.step]
  | webLogOn k newCookies =>
    simp only [Logins.step]
    rcases hk : l.outstanding.get? k with _ | sessionId
    · exact h
    · intro _
      apply h
      right
      intro hnil
      rw [hnil] at hk
      simp at hk
  | loggedOn => exact h
  | error => exact h
  | loggedOff => exact h
  | friendMsg _ _ _ => exact h
  | tradeProposed _ _ => exact h
  | sessionStart _ => exact h
  | tradeOffers _ => exact h
  | timer => exact h
  | listing _ _ _ => exact h
  | trade _ _ => exact h

theorem run_latest (evs : List Event) :
    ∀ l : Logins, ((l.completed ≠ [] ∨ l.outstanding ≠ []) → l.latest ≠ none) →
      (((l.run evs).completed ≠ [] ∨ (l.run evs).outstanding ≠ []) →
        (l.run evs).latest ≠ none) := by
  induction evs with
  | nil => intro l h; exact h
  | cons ev rest ih =>
    intro l h
    simp only [Logins.run]
    exact ih _ (step_latest l ev h)

/-- C9 amended: whenever `sessionStart` opens a trade session, the session id it
copies is the one of the most recent `webSessionID` event and the cookies it copies
are those delivered by the most recent completion of `webLogOn`, each copied whole;
the two need not come from the same web-login cycle, since the session id is
replaced when the `webSessionID` event arrives and the cookies only when `webLogOn`
calls back. -/
theorem session_copies_latest (secrets : Secrets) (evs : List Event) (steamId : String)
    (h : (run secrets State.init evs).1.canTrade = true) :
    ∃ sessionId cycleId cookies,
      (Logins.run Logins.init evs).latest = some sessionId ∧
      (Logins.run Logins.init evs).completed.getLast? = some (cycleId, cookies) ∧
      (step secrets (run secrets State.init evs).1 (.sessionStart steamId)).1.trades
        = (run secrets State.init evs).1.trades
            ++ [⟨steamId, some sessionId, cookies, .opening, [], 0, 0, 0⟩] := by
  obtain ⟨_, h2, h3, h4⟩ := run_logins secrets evs State.init Logins.init
    (by simp [State.init, Logins.init])
  have hne := h4 h
  have hlat := run_latest evs Logins.init (by simp [Logins.init]) (Or.inl hne)
  rcases hl : (Logins.run Logins.init evs).latest with _ | sessionId
  · exact absurd hl hlat
  · rcases hc : (Logins.run Logins.init evs).completed.getLast? with _ | ⟨cycleId, cookies⟩
    · rw [List.getLast?_eq_none_iff] at hc
      exact absurd hc hne
    · refine ⟨sessionId, cycleId, cookies, rfl, rfl, ?_⟩
      rw [hl] at h2
      rw [hc] at h3
      simp [step, onSessionStart, h, h2, h3]

theorem session_copies_latest_witness :
    ∃ sessionId cycleId cookies,
      (Logins.run Logins.init [.webSessionID "s1", .webLogOn 0 ["c1=x"]]).latest
        = some sessionId ∧
      (Logins.run Logins.init [.webSessionID "s1", .webLogOn 0 ["c1=x"]]).completed.getLast?
        = some (cycleId, cookies) ∧
      (step ⟨"trashbot", "owner", [], []⟩
          (run ⟨"trashbot", "owner", [], []⟩ State.init
            [.webSessionID "s1", .webLogOn 0 ["c1=x"]]).1 (.sessionStart "peer")).1.trades
        = (run ⟨"trashbot", "owner", [], []⟩ State.init
            [.webSessionID "s1", .webLogOn 0 ["c1=x"]]).1.trades
            ++ [⟨"peer", some sessionId, cookies, .opening, [], 0, 0, 0⟩] :=
  session_copies_latest ⟨"trashbot", "owner", [], []⟩
    [.webSessionID "s1", .webLogOn 0 ["c1=x"]] "peer" (by decide)

end TrashBot
